import Mathlib

/-!
Verification of the trading-signal extraction engine and the escalation
notification policy of the Telegram scraper repository.

The embedded source files are `src/utils/trading_signal_praser.py`,
`src/notifications/fcm_notifier.py` and `src/notifications/fcm_v1_notifier.py`.

Modelling conventions:
* Strings are handled as `List Char` internally (`Chars`); the Python
  `re` searches of the source use only a handful of concrete patterns, and
  each of them is implemented directly as a leftmost-match scanner with the
  exact alternation order and greedy/backtracking behaviour of the pattern.
* Python `float` prices are modelled as exact rationals.  Every numeric
  token the scanner captures matches `\d+\.?\d*`, always parses, and every
  comparison the embedded code performs on such values (truthiness against
  `0`, the `0.4` confidence threshold built from `0.2` increments, the
  `[0.01, 100000]` price filter) gives the same answer over exact rationals
  as over IEEE doubles, so the rational model is faithful for the
  properties below.
* Python truthiness (`if value:`) is modelled explicitly by `optStrTruthy`,
  `optQTruthy` and list non-emptiness, exactly where the source relies on it.
* `str.upper()` is modelled as character-wise ASCII upper-casing, and the
  character classes `\d`, `\s`, `[A-Z]` as their ASCII meaning.
-/

namespace TelegramScraper

abbrev Chars := List Char

/-- ASCII decimal digits, used both to recognise `\d` and to render numbers. -/
def digitChars : Chars := ['0', '1', '2', '3', '4', '5', '6', '7', '8', '9']

/-- The character class `\d` (ASCII), i.e. exactly the ten digit characters. -/
def isDigitC (c : Char) : Bool := digitChars.contains c

/-- The character class `\s` (ASCII whitespace as matched by Python `re`). -/
def isSpaceC (c : Char) : Bool :=
  c = ' ' || c = '\t' || c = '\n' || c = '\r' || c = '\x0b' || c = '\x0c'

/-- The character class `[:\s]` used between a keyword and a price. -/
def isSkipC (c : Char) : Bool := c = ':' || isSpaceC c

/-- The character class `[:\s@]` used in the direction-based entry fallback. -/
def isSkipAtC (c : Char) : Bool := c = ':' || c = '@' || isSpaceC c

/-- The character class `[\/\-\s]` of the generic pair pattern. -/
def isSepC (c : Char) : Bool := c = '/' || c = '-' || isSpaceC c

/-- The character class `[A-Z]`. -/
def isUpperAZ (c : Char) : Bool := 'A' ≤ c && c ≤ 'Z'

/-- Python's `needle in hay` substring test. -/
def occursIn (needle hay : Chars) : Bool :=
  hay.tails.any fun t => needle.isPrefixOf t

/-- Python's `str.upper()` (ASCII model). -/
def upperChars (s : Chars) : Chars := s.map Char.toUpper

/-- `re.search`: try a position matcher at every position, leftmost first
(including the empty suffix, where none of the matchers below succeed). -/
def scanFirst (m : Chars → Option α) : Chars → Option α
  | [] => m []
  | c :: rest =>
    match m (c :: rest) with
    | some r => some r
    | none => scanFirst m rest

/-- `re.findall` helper: collect non-overlapping leftmost matches, resuming
after the end of each match.  Every matcher used below consumes at least one
character, so the fuel `l.length + 1` given by `scanAll` never runs out. -/
def scanAllAux (m : Chars → Option (Chars × Chars)) : Chars → Nat → List Chars
  | _, 0 => []
  | l, fuel + 1 =>
    match l with
    | [] =>
      match m [] with
      | some (cap, _) => [cap]
      | none => []
    | c :: rest =>
      match m (c :: rest) with
      | some (cap, r) => cap :: scanAllAux m r fuel
      | none => scanAllAux m rest fuel

/-- `re.findall` over a whole text. -/
def scanAll (m : Chars → Option (Chars × Chars)) (l : Chars) : List Chars :=
  scanAllAux m l (l.length + 1)

/-- Match a literal alternative at the current position, returning the rest. -/
def matchLit (lit : Chars) (l : Chars) : Option Chars :=
  if lit.isPrefixOf l then some (l.drop lit.length) else none

/-- Match `STOP\s*LOSS` at the current position (maximal `\s*`; `LOSS`
starts with a non-space, so the greedy munch never needs to backtrack). -/
def matchStopSpaceLoss (l : Chars) : Option Chars :=
  (matchLit "STOP".toList l).bind fun r =>
    matchLit "LOSS".toList (r.dropWhile isSpaceC)

/-- Match `TAKE\s*PROFIT` at the current position. -/
def matchTakeSpaceProfit (l : Chars) : Option Chars :=
  (matchLit "TAKE".toList l).bind fun r =>
    matchLit "PROFIT".toList (r.dropWhile isSpaceC)

/-- Match the price pattern `\d+\.?\d*` at the current position, greedily:
maximal digits, an optional dot, maximal digits.  Returns the capture and
the rest of the text after the match. -/
def matchNumber (l : Chars) : Option (Chars × Chars) :=
  let (d1, r1) := l.span isDigitC
  if d1.isEmpty then none
  else
    match r1 with
    | '.' :: r2 =>
      let (d2, r3) := r2.span isDigitC
      some (d1 ++ '.' :: d2, r3)
    | _ => some (d1, r1)

/-- Digit-string to natural number (the captures are always digit strings). -/
def digitsToNat (l : Chars) : Nat :=
  l.foldl (fun a c => 10 * a + (c.toNat - 48)) 0

/-!
The rational arithmetic of the embedding is phrased through `mkRat` and the
`q...` helpers below rather than through `Rat.add`/`Rat.mul`/`Rat.div`
directly, because the latter do not reduce inside the kernel; the helpers
are proved equal to the standard operations (`qadd_eq`, …), so the
embedded code still computes the exact rational arithmetic of the source's
values while remaining evaluable by `decide`. -/

/-- Kernel-reducible rational addition (see `qadd_eq`). -/
def qadd (a b : ℚ) : ℚ :=
  mkRat (a.num * b.den + b.num * a.den) (a.den * b.den)

/-- Kernel-reducible rational multiplication (see `qmul_eq`). -/
def qmul (a b : ℚ) : ℚ :=
  mkRat (a.num * b.num) (a.den * b.den)

/-- Kernel-reducible rational subtraction (see `qsub_eq`). -/
def qsub (a b : ℚ) : ℚ :=
  mkRat (a.num * b.den - b.num * a.den) (a.den * b.den)

/-- Kernel-reducible rational absolute value (see `qabs_eq`). -/
def qabs (a : ℚ) : ℚ :=
  mkRat a.num.natAbs a.den

/-- Kernel-reducible rational division (see `qdiv_eq`). -/
def qdiv (a b : ℚ) : ℚ :=
  if 0 ≤ b.num then mkRat (a.num * b.den) (a.den * b.num.natAbs)
  else mkRat (-(a.num * b.den)) (a.den * b.num.natAbs)

/-- `int(q)` of Python for a non-negative rational, as a natural number. -/
def qfloorToNat (q : ℚ) : Nat :=
  (q.num / (q.den : Int)).toNat

/-- Python `float()` of a capture of `\d+\.?\d*`, as an exact rational
(such captures always parse, so the `try/except ValueError` of the source
never fires on them): `"12.34"` becomes `1234 / 10 ^ 2`. -/
def parseNumber (cap : Chars) : ℚ :=
  let (ip, rest) := cap.span isDigitC
  match rest with
  | '.' :: fp => mkRat (digitsToNat (ip ++ fp) : Int) (10 ^ fp.length)
  | _ => (digitsToNat ip : ℚ)

/-- Python truthiness of an optional string (`None` and `""` are falsy). -/
def optStrTruthy : Option String → Bool
  | none => false
  | some s => !s.toList.isEmpty

/-- Python truthiness of an optional number (`None` and `0.0` are falsy). -/
def optQTruthy : Option ℚ → Bool
  | none => false
  | some q => q != 0

/-- The keyword-then-price matcher at one position: the alternatives of the
keyword group are tried in pattern order; after a keyword the skip class is
consumed greedily and a price must follow.  (The skip classes contain no
digits, so the regex engine's backtracking into the `*` can never make the
`\d+` succeed; and if the price fails the engine falls through to the next
alternative at the same position, exactly as here.)  Returns the capture and
the rest after the whole match. -/
def keywordNumberAt (alts : List (Chars → Option Chars)) (skip : Char → Bool)
    (l : Chars) : Option (Chars × Chars) :=
  alts.findSome? fun alt =>
    (alt l).bind fun r1 =>
      matchNumber (r1.dropWhile skip)

/-- `(?:ENTRY|ENTER|PRICE|@|AT)` in declaration order. -/
def entryAlts : List (Chars → Option Chars) :=
  [matchLit "ENTRY".toList, matchLit "ENTER".toList, matchLit "PRICE".toList,
   matchLit "@".toList, matchLit "AT".toList]

/-- `(?:SL|STOP\s*LOSS|STOPLOSS|STOP)` in declaration order. -/
def slAlts : List (Chars → Option Chars) :=
  [matchLit "SL".toList, matchStopSpaceLoss, matchLit "STOPLOSS".toList,
   matchLit "STOP".toList]

/-- `(?:TP|TAKE\s*PROFIT|TAKEPROFIT|TARGET|TGT)` in declaration order. -/
def tpAlts : List (Chars → Option Chars) :=
  [matchLit "TP".toList, matchTakeSpaceProfit, matchLit "TAKEPROFIT".toList,
   matchLit "TARGET".toList, matchLit "TGT".toList]

/-- `(?:BUY|LONG|BULLISH|UP)`. -/
def buyWords : List String := ["BUY", "LONG", "BULLISH", "UP"]

/-- `(?:SELL|SHORT|BEARISH|DOWN)`. -/
def sellWords : List String := ["SELL", "SHORT", "BEARISH", "DOWN"]

def buyAlts : List (Chars → Option Chars) := buyWords.map fun w => matchLit w.toList

def sellAlts : List (Chars → Option Chars) := sellWords.map fun w => matchLit w.toList

/-- `self.forex_pairs`, in declaration order (the order is load-bearing:
the first catalogue entry found wins). -/
def forex_pairs : List String :=
  ["EURUSD", "GBPUSD", "USDJPY", "USDCHF", "AUDUSD", "USDCAD", "NZDUSD",
   "EURJPY", "GBPJPY", "EURGBP", "EURAUD", "EURCHF", "GBPAUD", "GBPCHF",
   "AUDJPY", "CADJPY", "CHFJPY", "AUDCAD", "AUDCHF", "CADCHF", "NZDJPY",
   "XAUUSD", "XAGUSD", "BTCUSD", "ETHUSD", "LTCUSD", "ADAUSD"]

/-- The four substring variants tried for a catalogue pair: the bare pair and
the pair with `/`, space and `-` re-inserted between its halves. -/
def pairVariants (pair : String) : List String :=
  [pair,
   String.mk (pair.toList.take 3 ++ '/' :: pair.toList.drop 3),
   String.mk (pair.toList.take 3 ++ ' ' :: pair.toList.drop 3),
   String.mk (pair.toList.take 3 ++ '-' :: pair.toList.drop 3)]

/-- The generic fallback pattern `([A-Z]{3})[\/\-\s]([A-Z]{3})` at one
position; on success the source returns `match.group(1) + match.group(2)`. -/
def genericPairAt : Chars → Option String
  | a :: b :: c :: s :: d :: e :: f :: _ =>
    if isUpperAZ a && isUpperAZ b && isUpperAZ c && isSepC s &&
       isUpperAZ d && isUpperAZ e && isUpperAZ f
    then some (String.mk [a, b, c, d, e, f]) else none
  | _ => none

/-- `TradingSignalParser._extract_instrument` (takes the upper-cased text). -/
def _extract_instrument (text : Chars) : Option String :=
  match forex_pairs.findSome? (fun pair =>
      if (pairVariants pair).any (fun v => occursIn v.toList text)
      then some pair else none) with
  | some pair => some pair
  | none => scanFirst genericPairAt text

/-- `TradingSignalParser._extract_direction`: the `buy` synonym group is
tried before the `sell` group (dict insertion order), and the result is the
upper-cased key. -/
def _extract_direction (text : Chars) : Option String :=
  if buyWords.any (fun w => occursIn w.toList text) then some "BUY"
  else if sellWords.any (fun w => occursIn w.toList text) then some "SELL"
  else none

/-- `self.direction_patterns[direction.lower()]`: the whole synonym group of
the already-detected direction, used by the entry-price fallback. -/
def dirGroupAlts (d : String) : List (Chars → Option Chars) :=
  if d = "BUY" then buyAlts
  else if d = "SELL" then sellAlts
  else []

/-- `TradingSignalParser._extract_entry_price`. -/
def _extract_entry_price (text : Chars) : Option ℚ :=
  match scanFirst (keywordNumberAt entryAlts isSkipC) text with
  | some (cap, _) => some (parseNumber cap)
  | none =>
    match _extract_direction text with
    | some d =>
      match scanFirst (keywordNumberAt (dirGroupAlts d) isSkipAtC) text with
      | some (cap, _) => some (parseNumber cap)
      | none => none
    | none => none

/-- `TradingSignalParser._extract_stop_loss`. -/
def _extract_stop_loss (text : Chars) : Option ℚ :=
  match scanFirst (keywordNumberAt slAlts isSkipC) text with
  | some (cap, _) => some (parseNumber cap)
  | none => none

/-- `TradingSignalParser._extract_take_profit`: `re.findall`, all matches
in document order. -/
def _extract_take_profit (text : Chars) : List ℚ :=
  (scanAll (keywordNumberAt tpAlts isSkipC) text).map parseNumber

/-- `(\d+)M(?:IN)?` at one position, returning `group(0)`. -/
def tfNumM (l : Chars) : Option String :=
  let (ds, r) := l.span isDigitC
  if ds.isEmpty then none
  else
    match r with
    | 'M' :: 'I' :: 'N' :: _ => some (String.mk (ds ++ ['M', 'I', 'N']))
    | 'M' :: _ => some (String.mk (ds ++ ['M']))
    | _ => none

/-- `(\d+)H(?:R)?` at one position. -/
def tfNumH (l : Chars) : Option String :=
  let (ds, r) := l.span isDigitC
  if ds.isEmpty then none
  else
    match r with
    | 'H' :: 'R' :: _ => some (String.mk (ds ++ ['H', 'R']))
    | 'H' :: _ => some (String.mk (ds ++ ['H']))
    | _ => none

/-- `(\d+)D(?:AY)?` at one position. -/
def tfNumD (l : Chars) : Option String :=
  let (ds, r) := l.span isDigitC
  if ds.isEmpty then none
  else
    match r with
    | 'D' :: 'A' :: 'Y' :: _ => some (String.mk (ds ++ ['D', 'A', 'Y']))
    | 'D' :: _ => some (String.mk (ds ++ ['D']))
    | _ => none

/-- `(\d+)W(?:EEK)?` at one position. -/
def tfNumW (l : Chars) : Option String :=
  let (ds, r) := l.span isDigitC
  if ds.isEmpty then none
  else
    match r with
    | 'W' :: 'E' :: 'E' :: 'K' :: _ => some (String.mk (ds ++ ['W', 'E', 'E', 'K']))
    | 'W' :: _ => some (String.mk (ds ++ ['W']))
    | _ => none

/-- `M(\d+)` at one position. -/
def tfMNum : Chars → Option String
  | 'M' :: rest =>
    let (ds, _) := rest.span isDigitC
    if ds.isEmpty then none else some (String.mk ('M' :: ds))
  | _ => none

/-- `H(\d+)` at one position. -/
def tfHNum : Chars → Option String
  | 'H' :: rest =>
    let (ds, _) := rest.span isDigitC
    if ds.isEmpty then none else some (String.mk ('H' :: ds))
  | _ => none

/-- `D(\d+)` at one position. -/
def tfDNum : Chars → Option String
  | 'D' :: rest =>
    let (ds, _) := rest.span isDigitC
    if ds.isEmpty then none else some (String.mk ('D' :: ds))
  | _ => none

/-- `TradingSignalParser._extract_timeframe`: the seven patterns are tried
in declaration order; the first pattern that matches anywhere wins and its
whole leftmost match is returned. -/
def _extract_timeframe (text : Chars) : Option String :=
  match scanFirst tfNumM text with
  | some s => some s
  | none =>
  match scanFirst tfNumH text with
  | some s => some s
  | none =>
  match scanFirst tfNumD text with
  | some s => some s
  | none =>
  match scanFirst tfNumW text with
  | some s => some s
  | none =>
  match scanFirst tfMNum text with
  | some s => some s
  | none =>
  match scanFirst tfHNum text with
  | some s => some s
  | none => scanFirst tfDNum text

/-- All captures the regex engine would try for the first group
`(\d+\.?\d*)` at one position, in backtracking order (greedy first): the
full match, then shorter fraction parts, then the integer part without the
dot, then shorter integer parts.  Paired with the rest of the text after
the candidate.  (Splits with the same end position behave identically for
the continuation, so one representative per end position suffices.) -/
def numberCandidates (l : Chars) : List (Chars × Chars) :=
  let (d1, r1) := l.span isDigitC
  if d1.isEmpty then []
  else
    let headCands := (List.range d1.length).reverse.map fun j =>
      (d1.take (j + 1), d1.drop (j + 1) ++ r1)
    match r1 with
    | '.' :: r2 =>
      let (d2, r3) := r2.span isDigitC
      ((List.range (d2.length + 1)).reverse.map fun k =>
        (d1 ++ '.' :: d2.take k, d2.drop k ++ r3)) ++ headCands
    | _ => headCands

/-- `(?:RR|R:R|RATIO)[:\s]*(\d+\.?\d*)[:\s]*(\d+\.?\d*)` at one position,
returning the two captures; the first capture backtracks if no second
number can follow. -/
def rrAt (l : Chars) : Option (Chars × Chars) :=
  ([matchLit "RR".toList, matchLit "R:R".toList,
    matchLit "RATIO".toList] : List (Chars → Option Chars)).findSome? fun alt =>
    (alt l).bind fun r1 =>
      (numberCandidates (r1.dropWhile isSkipC)).findSome? fun (g1, r3) =>
        (matchNumber (r3.dropWhile isSkipC)).map fun (g2, _) => (g1, g2)

/-- One digit as a character. -/
def digitChar (n : Nat) : Char := digitChars.getD n '0'

/-- Decimal digits of a natural number, with structural fuel (the fuel
`n + 1` always suffices since `n / 10 < n` for `n ≥ 10`). -/
def natDigitsAux : Nat → Nat → Chars
  | 0, _ => []
  | fuel + 1, n =>
    if n < 10 then [digitChar n]
    else natDigitsAux fuel (n / 10) ++ [digitChar (n % 10)]

/-- Decimal digits of a natural number. -/
def natDigits (n : Nat) : Chars := natDigitsAux (n + 1) n

/-- Exactly `k` digits of `m`, left-padded with zeros. -/
def padDigits : Nat → Nat → Chars
  | 0, _ => []
  | k + 1, m => padDigits k (m / 10) ++ [digitChar (m % 10)]

/-- Python's `str()` of a parsed price, modelled as a fixed-point decimal
rendering with six fractional digits.  Every price stored in a signal is a
non-negative decimal fraction; the properties proved below depend only on
the rendering being made of digits and one dot, which also holds of CPython's
`repr` of such floats up to its `e`-notation corner cases. -/
def renderQ (q : ℚ) : Chars :=
  let scaled : Nat := q.num.natAbs * 1000000 / q.den
  natDigits (scaled / 1000000) ++ '.' :: padDigits 6 (scaled % 1000000)

/-- Python's `f"{ratio:.1f}"` (one fractional digit; the rounding mode is
irrelevant to every property below). -/
def renderFixed1 (q : ℚ) : Chars :=
  let scaled : Nat := qfloorToNat (qadd (qmul q 10) (mkRat 1 2))
  natDigits (scaled / 10) ++ '.' :: [digitChar (scaled % 10)]

/-- `TradingSignalParser._calculate_risk_reward`: an explicit
`RR`/`R:R`/`RATIO` pair of numbers wins; otherwise the ratio is computed
from entry, stop loss and first take profit — all three taken truthily,
exactly as `if entry and stop_loss and take_profits:` does. -/
def _calculate_risk_reward (text : Chars) : Option String :=
  match scanFirst rrAt text with
  | some (g1, g2) => some (String.mk (g1 ++ ':' :: g2))
  | none =>
    match _extract_entry_price text, _extract_stop_loss text with
    | some entry, some stop_loss =>
      let take_profits := _extract_take_profit text
      if (entry != 0) && (stop_loss != 0) && !take_profits.isEmpty then
        let risk : ℚ := qabs (qsub entry stop_loss)
        let reward : ℚ := qabs (qsub (take_profits.headD 0) entry)
        if 0 < risk then some (String.mk ('1' :: ':' :: renderFixed1 (qdiv reward risk)))
        else none
      else none
    | _, _ => none

/-- `TradingSignalParser._extract_all_prices`: every `\d+\.?\d*` token of
the *original* text, kept only when inside `[0.01, 100000]`. -/
def _extract_all_prices (text : Chars) : List ℚ :=
  ((scanAll matchNumber text).map parseNumber).filter fun q =>
    decide (mkRat 1 100 ≤ q) && decide (q ≤ 100000)

/-- `TradingSignalParser._calculate_confidence`: five `+0.2` increments,
each guarded by the truthiness of a fresh extraction. -/
def _calculate_confidence (text : Chars) : ℚ :=
  let score : ℚ := 0
  let score := if optStrTruthy (_extract_instrument text) then qadd score (mkRat 1 5) else score
  let score := if optStrTruthy (_extract_direction text) then qadd score (mkRat 1 5) else score
  let score := if optQTruthy (_extract_entry_price text) then qadd score (mkRat 1 5) else score
  let score := if optQTruthy (_extract_stop_loss text) then qadd score (mkRat 1 5) else score
  let score := if !(_extract_take_profit text).isEmpty then qadd score (mkRat 1 5) else score
  score

/-- The record built by `extract_trading_signal`. -/
structure TradingSignal where
  instrument : Option String
  direction : Option String
  entry_price : Option ℚ
  stop_loss : Option ℚ
  take_profit : List ℚ
  risk_reward : Option String
  timeframe : Option String
  confidence : ℚ
  raw_prices : List ℚ
  is_valid_signal : Bool
deriving DecidableEq

/-- `TradingSignalParser._validate_signal`: required fields truthy, at
least one price field truthy, confidence at least `0.4`. -/
def _validate_signal (s : TradingSignal) : Bool :=
  if !optStrTruthy s.instrument then false
  else if !optStrTruthy s.direction then false
  else (optQTruthy s.entry_price || optQTruthy s.stop_loss || !s.take_profit.isEmpty)
       && decide (mkRat 2 5 ≤ s.confidence)

/-- The `signal` dict as first built by `extract_trading_signal`, before the
`signal['is_valid_signal'] = self._validate_signal(signal)` assignment. -/
def signalBase (text : String) : TradingSignal :=
  { instrument := _extract_instrument (upperChars text.toList)
    direction := _extract_direction (upperChars text.toList)
    entry_price := _extract_entry_price (upperChars text.toList)
    stop_loss := _extract_stop_loss (upperChars text.toList)
    take_profit := _extract_take_profit (upperChars text.toList)
    risk_reward := _calculate_risk_reward (upperChars text.toList)
    timeframe := _extract_timeframe (upperChars text.toList)
    confidence := _calculate_confidence (upperChars text.toList)
    raw_prices := _extract_all_prices text.toList
    is_valid_signal := false }

/-- `TradingSignalParser.extract_trading_signal`: upper-case once, populate
every field, then validate the populated record. -/
def extract_trading_signal (text : String) : TradingSignal :=
  { signalBase text with is_valid_signal := _validate_signal (signalBase text) }

/-- `", ".join(map(str, take_profits))`. -/
def joinComma : List ℚ → Chars
  | [] => []
  | [q] => renderQ q
  | q :: rest => renderQ q ++ ',' :: ' ' :: joinComma rest

/-- The characters of the summary built by `format_signal_summary` for a
valid signal (each `summary += ...` line of the source in order; a `None`
field would print as Python's `"None"`, though validity rules that out for
the two header fields). -/
def summaryChars (s : TradingSignal) : Chars :=
  ("📈 **" ++ (s.instrument.getD "None") ++ "** " ++ (s.direction.getD "None")).toList ++
  (if optQTruthy s.entry_price then
    "\n💰 Entry: ".toList ++ renderQ (s.entry_price.getD 0) else []) ++
  (if optQTruthy s.stop_loss then
    "\n🛑 Stop Loss: ".toList ++ renderQ (s.stop_loss.getD 0) else []) ++
  (if !s.take_profit.isEmpty then
    (if s.take_profit.length = 1 then
      "\n🎯 Take Profit: ".toList ++ renderQ (s.take_profit.headD 0)
     else "\n🎯 Take Profits: ".toList ++ joinComma s.take_profit) else []) ++
  (if optStrTruthy s.risk_reward then
    "\n📊 Risk/Reward: ".toList ++ (s.risk_reward.getD "").toList else []) ++
  (if optStrTruthy s.timeframe then
    "\n⏰ Timeframe: ".toList ++ (s.timeframe.getD "").toList else []) ++
  ("\n🎯 Confidence: ".toList ++ natDigits (qfloorToNat (qmul s.confidence 100)) ++ ['%'])

/-- `TradingSignalParser.format_signal_summary`. -/
def format_signal_summary (s : TradingSignal) : String :=
  if !s.is_valid_signal then "❌ Invalid or incomplete trading signal"
  else String.mk (summaryChars s)

/-- The fixed trading vocabulary of `is_forex_related`. -/
def trading_words : List String :=
  ["BUY", "SELL", "LONG", "SHORT", "ENTRY", "EXIT", "STOP", "TARGET",
   "PROFIT", "LOSS", "PIPS", "TRADE", "SIGNAL", "ANALYSIS", "CHART",
   "SUPPORT", "RESISTANCE", "TREND", "BREAKOUT", "REVERSAL"]

/-- `TradingSignalParser.is_forex_related`. -/
def is_forex_related (text : String) : Bool :=
  let tu := upperChars text.toList
  if optStrTruthy (_extract_instrument tu) then true
  else trading_words.any fun w => occursIn w.toList tu

/-!
## The escalation policy

The two notifiers (`FCMNotifier` in `fcm_notifier.py`, `FCMv1Notifier` in
`fcm_v1_notifier.py`) schedule detached follow-up deliveries after a
successful initial delivery.  The follow-up loops are pure in everything
the claims mention — the number of follow-ups, the build-up of each
follow-up's message and metadata, and the cumulative sleeps — so they are
embedded as functions producing the list of follow-ups, with `time` the
number of seconds after the initial delivery at which the follow-up is
sent. -/

/-- The identifying metadata carried by `message_data`; `dict.copy()` is
modelled by the record update that the loops perform on `id` alone. -/
structure EscMeta where
  id : String
  source : String
  chat_id : String
  chat_title : String
  sender_name : String
  timestamp : String
deriving DecidableEq

/-- One scheduled follow-up delivery. -/
structure FollowUp where
  time : Nat
  message : String
  meta : EscMeta
deriving DecidableEq

/-- `urgency_levels` of `FCMNotifier._send_voice_persistent_notifications`. -/
def urgency_levels : List String :=
  ["🚨 URGENT FOREX ALERT 🚨",
   "🔊 CRITICAL TRADE SIGNAL 🔊",
   "⚠️ IMMEDIATE ACTION REQUIRED ⚠️",
   "🚨 FOREX SIGNAL WAITING 🚨"]

/-- The voice follow-up loop body: iteration `i` (0-based) sleeps 3 s, then
sends `f"{urgency_levels[i % 4]}\n\n{formatted_message}"` under the copied
metadata with id `f"{base_id}_voice_followup_{i+1}"`. -/
def voiceFollowAux (base : String) (meta : EscMeta) : Nat → Nat → Nat → List FollowUp
  | _, _, 0 => []
  | t, i, k + 1 =>
    { time := t + 3
      message := urgency_levels.getD (i % urgency_levels.length) "" ++ "\n\n" ++ base
      meta := { meta with id := meta.id ++ "_voice_followup_" ++ toString (i + 1) } }
    :: voiceFollowAux base meta (t + 3) (i + 1) k

/-- `FCMNotifier._send_voice_persistent_notifications`:
`follow_ups = min(self.duration // 3, 8)` iterations. -/
def _send_voice_persistent_notifications (duration : Nat) (base : String)
    (meta : EscMeta) : List FollowUp :=
  voiceFollowAux base meta 0 0 (min (duration / 3) 8)

/-- The plain follow-up loop body: iteration `i` sleeps 5 s, then sends
`f"🔴 URGENT: {formatted_message}"` under the copied metadata with id
`f"{base_id}_followup_{i+1}"`. -/
def plainFollowAux (base : String) (meta : EscMeta) : Nat → Nat → Nat → List FollowUp
  | _, _, 0 => []
  | t, i, k + 1 =>
    { time := t + 5
      message := "🔴 URGENT: " ++ base
      meta := { meta with id := meta.id ++ "_followup_" ++ toString (i + 1) } }
    :: plainFollowAux base meta (t + 5) (i + 1) k

/-- `FCMv1Notifier._send_persistent_notifications`:
`follow_ups = min(self.duration // 5, 6)` iterations. -/
def _send_persistent_notifications (duration : Nat) (base : String)
    (meta : EscMeta) : List FollowUp :=
  plainFollowAux base meta 0 0 (min (duration / 5) 6)

/-- The trading/forex classification used by `FCMNotifier`:
`'FOREX' in formatted_message.upper() or 'TRADE' in formatted_message.upper()`. -/
def marker_present (msg : String) : Bool :=
  occursIn "FOREX".toList (upperChars msg.toList) ||
  occursIn "TRADE".toList (upperChars msg.toList)

/-- The guard under which `FCMNotifier.send_notification` spawns
`_send_voice_persistent_notifications` inside its success branch:
`if self.duration > 5 and ('FOREX' in ... or 'TRADE' in ...)`. -/
def voice_schedules_followups (duration : Nat) (msg : String) : Bool :=
  decide (5 < duration) && marker_present msg

/-- The guard under which `FCMv1Notifier.send_notification` spawns
`_send_persistent_notifications` inside its success branch:
`if self.duration > 5:` — with no condition on the message content. -/
def v1_schedules_followups (duration : Nat) (_msg : String) : Bool :=
  decide (5 < duration)

/-- The outcome of one follow-up delivery attempt: a normal send, a non-200
HTTP failure (logged, never raised), or a raised exception. -/
inductive DeliveryOutcome
  | ok
  | httpFail
  | exn
deriving DecidableEq

/-- The follow-up loop under an outcome assignment `f`, returning the
0-based indices of the attempts actually made.  With `catchEach := true`
(the v1 notifier: a `try/except` around each single send) every iteration
runs; with `catchEach := false` (the voice notifier: one `try/except`
around the whole loop) a raising attempt aborts the remaining iterations.
A non-200 response only logs in both loops and never stops them. -/
def escLoopAttempts (catchEach : Bool) (f : Nat → DeliveryOutcome) : Nat → Nat → List Nat
  | _, 0 => []
  | i, k + 1 =>
    match f i, catchEach with
    | .exn, false => [i]
    | _, _ => i :: escLoopAttempts catchEach f (i + 1) k

/-- Attempts made by `FCMNotifier._send_voice_persistent_notifications`
when `n` follow-ups are scheduled and attempt `i` has outcome `f i`. -/
def voiceAttempted (f : Nat → DeliveryOutcome) (n : Nat) : List Nat :=
  escLoopAttempts false f 0 n

/-- Attempts made by `FCMv1Notifier._send_persistent_notifications`. -/
def v1Attempted (f : Nat → DeliveryOutcome) (n : Nat) : List Nat :=
  escLoopAttempts true f 0 n

/-- The characters a rendered price consists of. -/
def numChars : Chars := digitChars ++ ['.']

/-- The characters a risk/reward string consists of. -/
def rrChars : Chars := digitChars ++ ['.', ':']

/-- The characters a timeframe string consists of. -/
def tfChars : Chars := digitChars ++ ['M', 'I', 'N', 'H', 'R', 'D', 'A', 'Y', 'W', 'E', 'K']

/-- A sample metadata record used by concrete escalation scenarios. -/
def sampleMeta : EscMeta :=
  { id := "MSG"
    source := "telegram"
    chat_id := "77"
    chat_title := "Forex Chat"
    sender_name := "Alice"
    timestamp := "2024-01-01T00:00:00" }

/-! ## General lemmas about the substring test -/

theorem occursIn_iff {needle hay : Chars} :
    occursIn needle hay = true ↔ ∃ pre post, hay = pre ++ needle ++ post := by
  unfold occursIn
  rw [List.any_eq_true]
  constructor
  · rintro ⟨t, ht, hp⟩
    rw [List.mem_tails] at ht
    obtain ⟨pre, hpre⟩ := ht
    rw [ List.isPrefixOf_iff_prefix] at hp
    obtain ⟨post, hpost⟩ := hp
    exact ⟨pre, post, by rw [List.append_assoc, hpost, hpre]⟩
  · rintro ⟨pre, post, rfl⟩
    refine ⟨needle ++ post, ?_, ?_⟩
    · rw [List.mem_tails, List.append_assoc]
      exact List.suffix_append pre (needle ++ post)
    · rw [ List.isPrefixOf_iff_prefix]
      exact List.prefix_append needle post

theorem occursIn_of_middle (pre needle post : Chars) :
    occursIn needle (pre ++ needle ++ post) = true :=
  occursIn_iff.mpr ⟨pre, post, rfl⟩

theorem occursIn_nil {needle : Chars} (hne : needle ≠ []) :
    occursIn needle [] = false := by
  cases needle with
  | nil => exact absurd rfl hne
  | cons a as => rfl

theorem occursIn_cons (needle : Chars) (c : Char) (l : Chars) :
    occursIn needle (c :: l) = (needle.isPrefixOf (c :: l) || occursIn needle l) := by
  unfold occursIn
  rw [List.tails_cons, List.any_cons]

theorem occursIn_length_le {needle hay : Chars} (h : occursIn needle hay = true) :
    needle.length ≤ hay.length := by
  obtain ⟨pre, post, rfl⟩ := occursIn_iff.mp h
  simp only [List.length_append]
  omega

theorem occursIn_eq_of_length {needle hay : Chars} (h : occursIn needle hay = true)
    (hl : needle.length = hay.length) : needle = hay := by
  obtain ⟨pre, post, rfl⟩ := occursIn_iff.mp h
  simp only [List.length_append] at hl
  have hpre : pre = [] := List.eq_nil_of_length_eq_zero (by omega)
  have hpost : post = [] := List.eq_nil_of_length_eq_zero (by omega)
  simp [hpre, hpost]

theorem occursIn_countP_le (P : Char → Bool) {needle hay : Chars}
    (h : occursIn needle hay = true) : needle.countP P ≤ hay.countP P := by
  obtain ⟨pre, post, rfl⟩ := occursIn_iff.mp h
  simp only [List.countP_append]
  omega

theorem occursIn_false_of_forbidden {needle hay : Chars} (P : Char → Bool)
    (hn : ∃ c ∈ needle, P c = true) (hh : ∀ c ∈ hay, P c = false) :
    occursIn needle hay = false := by
  cases hb : occursIn needle hay with
  | false => rfl
  | true =>
    obtain ⟨pre, post, rfl⟩ := occursIn_iff.mp hb
    obtain ⟨c, hc, hPc⟩ := hn
    have hmem : c ∈ pre ++ needle ++ post := by
      simp only [List.mem_append]
      exact Or.inl (Or.inr hc)
    rw [hh c hmem] at hPc
    cases hPc

theorem isPrefixOf_append_eq (needle S1 S2 : Chars)
    (hhead : ∀ c, S2.head? = some c → c ∉ needle) :
    needle.isPrefixOf (S1 ++ S2) = needle.isPrefixOf S1 := by
  induction S1 generalizing needle with
  | nil =>
    cases needle with
    | nil => simp
    | cons n ns =>
      simp only [List.nil_append]
      cases S2 with
      | nil => rfl
      | cons c S2' =>
        have hcn : (n == c) = false := by
          cases hnc : n == c with
          | false => rfl
          | true =>
            have : n = c := by simpa using hnc
            exact absurd (List.mem_cons_self n ns) (this ▸ hhead c rfl)
        show (n == c && ns.isPrefixOf S2') = (n :: ns).isPrefixOf []
        rw [hcn]
        rfl
  | cons a S1' ih =>
    cases needle with
    | nil => simp
    | cons n ns =>
      show (n == a && ns.isPrefixOf (S1' ++ S2)) = (n == a && ns.isPrefixOf S1')
      rw [ih ns fun c hc hmem => hhead c hc (List.mem_cons_of_mem _ hmem)]

theorem occursIn_append_head (needle S1 S2 : Chars) (hne : needle ≠ [])
    (hhead : ∀ c, S2.head? = some c → c ∉ needle) :
    occursIn needle (S1 ++ S2) = (occursIn needle S1 || occursIn needle S2) := by
  induction S1 with
  | nil =>
    rw [List.nil_append, occursIn_nil hne, Bool.false_or]
  | cons a S1' ih =>
    rw [List.cons_append, occursIn_cons, occursIn_cons, ih, ← List.cons_append,
      isPrefixOf_append_eq needle (a :: S1') S2 hhead, Bool.or_assoc]

theorem occursIn_reverse (needle hay : Chars) :
    occursIn needle.reverse hay.reverse = occursIn needle hay := by
  cases hb : occursIn needle hay with
  | true =>
    obtain ⟨pre, post, rfl⟩ := occursIn_iff.mp hb
    apply occursIn_iff.mpr
    exact ⟨post.reverse, pre.reverse, by simp⟩
  | false =>
    cases hb' : occursIn needle.reverse hay.reverse with
    | false => rfl
    | true =>
      obtain ⟨pre, post, hsplit⟩ := occursIn_iff.mp hb'
      have : hay = post.reverse ++ needle ++ pre.reverse := by
        have := congrArg List.reverse hsplit
        simpa [List.append_assoc] using this
      rw [this, occursIn_of_middle] at hb
      cases hb

theorem occursIn_append_last (needle S1 S2 : Chars) (hne : needle ≠ [])
    (hlast : ∀ c, S1.getLast? = some c → c ∉ needle) :
    occursIn needle (S1 ++ S2) = (occursIn needle S1 || occursIn needle S2) := by
  have hrev : occursIn needle.reverse (S2.reverse ++ S1.reverse) =
      (occursIn needle.reverse S2.reverse || occursIn needle.reverse S1.reverse) := by
    apply occursIn_append_head
    · simpa using hne
    · intro c hc
      rw [List.head?_reverse] at hc
      rw [List.mem_reverse]
      exact hlast c hc
  rw [← List.reverse_append, occursIn_reverse, occursIn_reverse, occursIn_reverse] at hrev
  rw [hrev, Bool.or_comm]

theorem head?_flatten_mem {pieces : List Chars} {c : Char}
    (h : pieces.flatten.head? = some c) : ∃ p ∈ pieces, p.head? = some c := by
  induction pieces with
  | nil => cases h
  | cons p ps ih =>
    rw [List.flatten_cons, List.head?_append] at h
    cases hp : p.head? with
    | some d =>
      rw [hp] at h
      exact ⟨p, List.mem_cons_self p ps, by rw [hp]; simpa using h⟩
    | none =>
      rw [hp] at h
      obtain ⟨q, hq, hqh⟩ := ih (by simpa using h)
      exact ⟨q, List.mem_cons_of_mem _ hq, hqh⟩

theorem occursIn_flatten (needle : Chars) (hne : needle ≠ []) :
    ∀ pieces : List Chars,
      (∀ p ∈ pieces, ∀ c, p.head? = some c → c ∉ needle) →
      occursIn needle pieces.flatten = pieces.any fun p => occursIn needle p := by
  intro pieces
  induction pieces with
  | nil => intro _; rw [List.flatten_nil, occursIn_nil hne, List.any_nil]
  | cons p ps ih =>
    intro hheads
    rw [List.flatten_cons, List.any_cons,
      occursIn_append_head needle p ps.flatten hne fun c hc => by
        obtain ⟨q, hq, hqh⟩ := head?_flatten_mem hc
        exact hheads q (List.mem_cons_of_mem _ hq) c hqh,
      ih fun q hq => hheads q (List.mem_cons_of_mem _ hq)]

/-! ## General lemmas about the scanners -/

theorem scanFirst_eq_some {m : Chars → Option α} :
    ∀ {l : Chars} {r : α}, scanFirst m l = some r → ∃ l', m l' = some r := by
  intro l
  induction l with
  | nil => exact fun h => ⟨[], h⟩
  | cons c rest ih =>
    intro r h
    unfold scanFirst at h
    split at h
    next r' hm => exact ⟨c :: rest, hm.trans h⟩
    next hm => exact ih h

theorem findSome_unique {α β : Type _} {l : List α} {f : α → Option β} {a : α} {b : β}
    (hmem : a ∈ l) (ha : f a = some b) (hother : ∀ x ∈ l, x ≠ a → f x = none) :
    l.findSome? f = some b := by
  induction l with
  | nil => cases hmem
  | cons x xs ih =>
    rw [List.findSome?_cons]
    by_cases hx : x = a
    · subst hx
      rw [ha]
    · rw [hother x (List.mem_cons_self x xs) hx]
      have hmem' : a ∈ xs := by
        cases List.mem_cons.mp hmem with
        | inl h => exact absurd h.symm hx
        | inr h => exact h
      exact ih hmem' fun y hy hne => hother y (List.mem_cons_of_mem _ hy) hne

/-! ## The kernel-reducible rational helpers compute the standard operations -/

theorem qadd_eq (a b : ℚ) : qadd a b = a + b := by
  unfold qadd
  rw [Rat.mkRat_eq_div]
  have ha : ((a.den : ℚ)) ≠ 0 := Nat.cast_ne_zero.mpr a.den_nz
  have hb : ((b.den : ℚ)) ≠ 0 := Nat.cast_ne_zero.mpr b.den_nz
  conv_rhs => rw [← Rat.num_div_den a, ← Rat.num_div_den b]
  push_cast
  field_simp
  try ring

theorem qmul_eq (a b : ℚ) : qmul a b = a * b := by
  unfold qmul
  rw [Rat.mkRat_eq_div]
  have ha : ((a.den : ℚ)) ≠ 0 := Nat.cast_ne_zero.mpr a.den_nz
  have hb : ((b.den : ℚ)) ≠ 0 := Nat.cast_ne_zero.mpr b.den_nz
  conv_rhs => rw [← Rat.num_div_den a, ← Rat.num_div_den b]
  push_cast
  field_simp
  try ring

theorem qsub_eq (a b : ℚ) : qsub a b = a - b := by
  unfold qsub
  rw [Rat.mkRat_eq_div]
  have ha : ((a.den : ℚ)) ≠ 0 := Nat.cast_ne_zero.mpr a.den_nz
  have hb : ((b.den : ℚ)) ≠ 0 := Nat.cast_ne_zero.mpr b.den_nz
  conv_rhs => rw [← Rat.num_div_den a, ← Rat.num_div_den b]
  push_cast
  field_simp
  try ring

theorem qabs_eq (a : ℚ) : qabs a = |a| := by
  unfold qabs
  rw [Rat.mkRat_eq_div]
  conv_rhs => rw [← Rat.num_div_den a]
  rw [abs_div, abs_of_nonneg (show (0 : ℚ) ≤ (a.den : ℚ) by positivity)]
  congr 1
  rw [Int.cast_natAbs, Int.cast_abs]
  try simp

theorem qdiv_eq (a b : ℚ) : qdiv a b = a / b := by
  unfold qdiv
  by_cases hb : b = 0
  · subst hb
    norm_num [Rat.mkRat_eq_div]
  · have hnum : b.num ≠ 0 := Rat.num_ne_zero.mpr hb
    have ha : ((a.den : ℚ)) ≠ 0 := Nat.cast_ne_zero.mpr a.den_nz
    have hd : ((b.den : ℚ)) ≠ 0 := Nat.cast_ne_zero.mpr b.den_nz
    have hn : ((b.num : ℚ)) ≠ 0 := by exact_mod_cast hnum
    split
    next hsign =>
      rw [Rat.mkRat_eq_div]
      conv_rhs => rw [← Rat.num_div_den a, ← Rat.num_div_den b]
      have : ((b.num.natAbs : Int) : ℚ) = ((b.num : ℚ)) := by
        rw [Int.natAbs_of_nonneg hsign]
      push_cast
      rw [Int.cast_natAbs, Int.cast_abs,
        abs_of_nonneg (show (0 : ℚ) ≤ (b.num : ℚ) by exact_mod_cast hsign)]
      field_simp
      try ring
    next hsign =>
      push_neg at hsign
      rw [Rat.mkRat_eq_div]
      conv_rhs => rw [← Rat.num_div_den a, ← Rat.num_div_den b]
      push_cast
      rw [Int.cast_natAbs, Int.cast_abs,
        abs_of_nonpos (show ((b.num : ℚ)) ≤ 0 by exact_mod_cast hsign.le)]
      field_simp
      try ring

/-! ## Field equations and shape lemmas for the extractor -/

theorem extract_instrument_eq (text : String) :
    (extract_trading_signal text).instrument = _extract_instrument (upperChars text.toList) := rfl

theorem extract_direction_eq (text : String) :
    (extract_trading_signal text).direction = _extract_direction (upperChars text.toList) := rfl

theorem extract_entry_eq (text : String) :
    (extract_trading_signal text).entry_price = _extract_entry_price (upperChars text.toList) := rfl

theorem extract_stop_eq (text : String) :
    (extract_trading_signal text).stop_loss = _extract_stop_loss (upperChars text.toList) := rfl

theorem extract_tp_eq (text : String) :
    (extract_trading_signal text).take_profit = _extract_take_profit (upperChars text.toList) := rfl

theorem extract_rr_eq (text : String) :
    (extract_trading_signal text).risk_reward = _calculate_risk_reward (upperChars text.toList) := rfl

theorem extract_tf_eq (text : String) :
    (extract_trading_signal text).timeframe = _extract_timeframe (upperChars text.toList) := rfl

theorem extract_conf_eq (text : String) :
    (extract_trading_signal text).confidence = _calculate_confidence (upperChars text.toList) := rfl

theorem extract_valid_eq (text : String) :
    (extract_trading_signal text).is_valid_signal = _validate_signal (signalBase text) := rfl

theorem not_isEmpty_iff {α : Type _} {l : List α} : (!l.isEmpty) = true ↔ l ≠ [] := by
  cases l <;> simp

theorem genericPairAt_shape {l : Chars} {s : String} (h : genericPairAt l = some s) :
    s.toList.length = 6 ∧ ∀ c ∈ s.toList, isUpperAZ c = true := by
  unfold genericPairAt at h
  split at h
  next a b c' sep d e f rest =>
    split at h
    next hcond =>
      obtain rfl : String.mk [a, b, c', d, e, f] = s := Option.some.inj h
      simp only [Bool.and_eq_true] at hcond
      refine ⟨rfl, ?_⟩
      intro x hx
      simp only [String.toList, List.mem_cons, List.not_mem_nil, or_false] at hx
      rcases hx with rfl | rfl | rfl | rfl | rfl | rfl <;> tauto
    next => cases h
  next => cases h

theorem pairs_length : ∀ p ∈ forex_pairs, p.toList.length = 6 := by decide

theorem instrument_shape {t : Chars} {s : String} (h : _extract_instrument t = some s) :
    s ∈ forex_pairs ∨ (s.toList.length = 6 ∧ ∀ c ∈ s.toList, isUpperAZ c = true) := by
  unfold _extract_instrument at h
  split at h
  next pair hfind =>
    obtain rfl := Option.some.inj h
    left
    obtain ⟨p, hp, hpf⟩ := List.exists_of_findSome?_eq_some hfind
    split at hpf
    next => exact (Option.some.inj hpf) ▸ hp
    next => cases hpf
  next =>
    right
    obtain ⟨l', hl'⟩ := scanFirst_eq_some h
    exact genericPairAt_shape hl'

theorem optStrTruthy_instrument (t : Chars) :
    optStrTruthy (_extract_instrument t) = (_extract_instrument t).isSome := by
  cases h : _extract_instrument t with
  | none => rfl
  | some s =>
    have hne : s.toList ≠ [] := by
      intro hnil
      cases instrument_shape h with
      | inl hmem => have h6 := pairs_length s hmem; rw [hnil] at h6; cases h6
      | inr hsh => have h6 := hsh.1; rw [hnil] at h6; cases h6
    show (!s.toList.isEmpty) = true
    exact not_isEmpty_iff.mpr hne

theorem direction_shape (t : Chars) :
    _extract_direction t = none ∨ _extract_direction t = some "BUY" ∨
      _extract_direction t = some "SELL" := by
  unfold _extract_direction
  split_ifs <;> simp

theorem optStrTruthy_direction (t : Chars) :
    optStrTruthy (_extract_direction t) = (_extract_direction t).isSome := by
  rcases direction_shape t with h | h | h <;> rw [h] <;> rfl

theorem parseNumber_nonneg (cap : Chars) : 0 ≤ parseNumber cap := by
  unfold parseNumber
  split
  split
  · rw [Rat.mkRat_eq_div]
    apply div_nonneg
    · exact_mod_cast Int.ofNat_nonneg _
    · positivity
  · positivity

theorem entry_price_nonneg {t : Chars} {q : ℚ} (h : _extract_entry_price t = some q) :
    0 ≤ q := by
  unfold _extract_entry_price at h
  split at h
  next => obtain rfl := Option.some.inj h; exact parseNumber_nonneg _
  next =>
    split at h
    next =>
      split at h
      next => obtain rfl := Option.some.inj h; exact parseNumber_nonneg _
      next => cases h
    next => cases h

theorem stop_loss_nonneg {t : Chars} {q : ℚ} (h : _extract_stop_loss t = some q) :
    0 ≤ q := by
  unfold _extract_stop_loss at h
  split at h
  next => obtain rfl := Option.some.inj h; exact parseNumber_nonneg _
  next => cases h

/-! ## Claims C1, C2, C8, C9, C10 -/

/-- **C1** (corrected).  The claim reads confidence as `0.2 ×` the number of
*found* (populated) fields; but `_calculate_confidence` counts Python
truthiness, so an extracted entry price or stop loss equal to `0` is found
yet contributes nothing.  On `"ENTRY 0"` the record has a populated
`entry_price` (so the claim predicts confidence `0.2 × 1`) while the code
computes confidence `0`. -/
theorem c1_counterexample :
    (extract_trading_signal "ENTRY 0").instrument = none ∧
    (extract_trading_signal "ENTRY 0").direction = none ∧
    (extract_trading_signal "ENTRY 0").entry_price = some 0 ∧
    (extract_trading_signal "ENTRY 0").stop_loss = none ∧
    (extract_trading_signal "ENTRY 0").take_profit = [] ∧
    (extract_trading_signal "ENTRY 0").confidence = 0 ∧
    (0 : ℚ) ≠ 1 / 5 * 1 := by
  refine ⟨by decide, by decide, by decide, by decide, by decide, by decide, by norm_num⟩

/-- **C1** (amended).  For every input, `extract_trading_signal` terminates
and returns a record whose confidence lies in `[0, 1]` and equals exactly
`0.2 ×` the number of the five presence indicators that hold, where the
price indicators require a *truthy* (non-`None`, non-zero) value —
instrument present, direction present, entry price present and non-zero,
stop loss present and non-zero, at least one take profit extracted — and no
other heuristic signal influences it. -/
theorem c1_amended (text : String) :
    (extract_trading_signal text).confidence =
      1 / 5 * (((if (extract_trading_signal text).instrument.isSome then 1 else 0) +
                (if (extract_trading_signal text).direction.isSome then 1 else 0) +
                (if optQTruthy (extract_trading_signal text).entry_price then 1 else 0) +
                (if optQTruthy (extract_trading_signal text).stop_loss then 1 else 0) +
                (if (extract_trading_signal text).take_profit ≠ [] then 1 else 0) : ℚ)) ∧
    0 ≤ (extract_trading_signal text).confidence ∧
    (extract_trading_signal text).confidence ≤ 1 := by
  rw [extract_conf_eq, extract_instrument_eq, extract_direction_eq, extract_entry_eq,
    extract_stop_eq, extract_tp_eq, ← optStrTruthy_instrument, ← optStrTruthy_direction]
  simp only [_calculate_confidence, qadd_eq, ← not_isEmpty_iff]
  split_ifs <;> norm_num [Rat.mkRat_eq_div]

/-- **C2** (corrected).  The claim's "present" reads as populated
(non-`None`), but `_validate_signal` tests Python truthiness, so a record
whose only price field is an extracted `0` is rejected.  On
`"EURUSD BUY ENTRY 0"` every condition of the claimed formula holds
(instrument, direction, a populated entry price, confidence `0.4 ≥ 0.4`),
yet `is_valid_signal` is false. -/
theorem c2_counterexample :
    ((extract_trading_signal "EURUSD BUY ENTRY 0").instrument.isSome ∧
     (extract_trading_signal "EURUSD BUY ENTRY 0").direction.isSome ∧
     ((extract_trading_signal "EURUSD BUY ENTRY 0").entry_price.isSome ∨
      (extract_trading_signal "EURUSD BUY ENTRY 0").stop_loss.isSome ∨
      (extract_trading_signal "EURUSD BUY ENTRY 0").take_profit ≠ []) ∧
     2 / 5 ≤ (extract_trading_signal "EURUSD BUY ENTRY 0").confidence) ∧
    (extract_trading_signal "EURUSD BUY ENTRY 0").is_valid_signal = false := by
  refine ⟨⟨by decide, by decide, Or.inl (by decide), ?_⟩, by decide⟩
  have h : (extract_trading_signal "EURUSD BUY ENTRY 0").confidence = mkRat 2 5 := by decide
  rw [h, Rat.mkRat_eq_div]
  norm_num

/-- **C2** (amended).  `is_valid_signal` is true iff instrument and
direction are present, at least one of the price fields is *truthy* (entry
or stop loss present and non-zero, or take-profit list non-empty), and
confidence is at least `0.4`. -/
theorem c2_amended (text : String) :
    (extract_trading_signal text).is_valid_signal = true ↔
      ((extract_trading_signal text).instrument.isSome ∧
       (extract_trading_signal text).direction.isSome ∧
       (optQTruthy (extract_trading_signal text).entry_price = true ∨
        optQTruthy (extract_trading_signal text).stop_loss = true ∨
        (extract_trading_signal text).take_profit ≠ []) ∧
       2 / 5 ≤ (extract_trading_signal text).confidence) := by
  rw [extract_valid_eq, extract_instrument_eq, extract_direction_eq, extract_entry_eq,
    extract_stop_eq, extract_tp_eq, extract_conf_eq]
  show _validate_signal (signalBase text) = true ↔ _
  unfold _validate_signal signalBase
  rw [optStrTruthy_instrument, optStrTruthy_direction]
  have h25 : (mkRat 2 5 : ℚ) = 2 / 5 := by
    rw [Rat.mkRat_eq_div]
    norm_num
  cases hI : (_extract_instrument (upperChars text.toList)).isSome <;>
    cases hD : (_extract_direction (upperChars text.toList)).isSome <;>
      simp [hI, hD, Bool.and_eq_true, Bool.or_eq_true, decide_eq_true_eq, not_isEmpty_iff,
        or_assoc, h25]

/-- **C8** (confirmed).  `extract_trading_signal` is a total pure function:
on every input string, including empty and malformed text, it returns the
fully populated record built from the individual total extractors (absent
tokens are `none` or `[]`, never an error), with validity computed from the
populated record. -/
theorem c8_total (text : String) :
    extract_trading_signal text =
      { instrument := _extract_instrument (upperChars text.toList)
        direction := _extract_direction (upperChars text.toList)
        entry_price := _extract_entry_price (upperChars text.toList)
        stop_loss := _extract_stop_loss (upperChars text.toList)
        take_profit := _extract_take_profit (upperChars text.toList)
        risk_reward := _calculate_risk_reward (upperChars text.toList)
        timeframe := _extract_timeframe (upperChars text.toList)
        confidence := _calculate_confidence (upperChars text.toList)
        raw_prices := _extract_all_prices text.toList
        is_valid_signal := _validate_signal (signalBase text) } := rfl

/-- **C9** (corrected).  A populated entry price or stop loss need not be
strictly positive: on `"SL: 0"` the stop loss is populated with `0`. -/
theorem c9_counterexample :
    (extract_trading_signal "SL: 0").stop_loss = some 0 ∧ ¬(0 : ℚ) < 0 := by decide

/-- **C9** (amended).  A populated (non-`None`) `entry_price` or
`stop_loss` always holds a non-negative number (the captured tokens are
unsigned decimals), though it can be exactly zero. -/
theorem c9_amended (text : String) (q : ℚ)
    (h : (extract_trading_signal text).entry_price = some q ∨
         (extract_trading_signal text).stop_loss = some q) :
    0 ≤ q := by
  rcases h with h | h
  · rw [extract_entry_eq] at h
    exact entry_price_nonneg h
  · rw [extract_stop_eq] at h
    exact stop_loss_nonneg h

theorem c9_witness : (extract_trading_signal "SL: 5").stop_loss = some 5 ∧ (0 : ℚ) ≤ 5 :=
  ⟨by decide, c9_amended "SL: 5" 5 (Or.inr (by decide))⟩

/-- **C10** (confirmed).  Whenever `extract_trading_signal` yields a valid
signal, `is_forex_related` accepts the same text: validity requires a
truthy instrument, and `is_forex_related` returns true as soon as
`_extract_instrument` of the same upper-cased text is truthy. -/
theorem c10_prefilter (text : String)
    (h : (extract_trading_signal text).is_valid_signal = true) :
    is_forex_related text = true := by
  rw [extract_valid_eq] at h
  have hI : optStrTruthy ((signalBase text).instrument) = true := by
    by_contra hcon
    have hfalse : optStrTruthy ((signalBase text).instrument) = false := by
      cases hb : optStrTruthy ((signalBase text).instrument)
      · rfl
      · exact absurd hb hcon
    unfold _validate_signal at h
    rw [hfalse] at h
    simp at h
  have hI' : optStrTruthy (_extract_instrument (upperChars text.toList)) = true := hI
  unfold is_forex_related
  simp only [optStrTruthy_instrument] at hI' ⊢
  simp
  exact Or.inl hI'

theorem c10_witness :
    (extract_trading_signal "EURUSD BUY SL 1.08").is_valid_signal = true ∧
    is_forex_related "EURUSD BUY SL 1.08" = true :=
  ⟨by decide, c10_prefilter "EURUSD BUY SL 1.08" (by decide)⟩

/-! ## Per-index characterisation of the escalation loops -/

theorem voiceFollowAux_length (base : String) (meta : EscMeta) :
    ∀ k t i, (voiceFollowAux base meta t i k).length = k := by
  intro k
  induction k with
  | zero => intro t i; rfl
  | succ k ih =>
    intro t i
    show (voiceFollowAux base meta (t + 3) (i + 1) k).length + 1 = k + 1
    rw [ih]

theorem plainFollowAux_length (base : String) (meta : EscMeta) :
    ∀ k t i, (plainFollowAux base meta t i k).length = k := by
  intro k
  induction k with
  | zero => intro t i; rfl
  | succ k ih =>
    intro t i
    show (plainFollowAux base meta (t + 5) (i + 1) k).length + 1 = k + 1
    rw [ih]

theorem voiceFollowAux_get (base : String) (meta : EscMeta) :
    ∀ k t i j fu, (voiceFollowAux base meta t i k)[j]? = some fu →
      fu.time = t + 3 * (j + 1) ∧
      fu.message = urgency_levels.getD ((i + j) % urgency_levels.length) "" ++ "\n\n" ++ base ∧
      fu.meta = { meta with id := meta.id ++ "_voice_followup_" ++ toString (i + j + 1) } := by
  intro k
  induction k with
  | zero => intro t i j fu h; cases h
  | succ k ih =>
    intro t i j fu h
    have hcons : voiceFollowAux base meta t i (k + 1) =
        { time := t + 3
          message := urgency_levels.getD (i % urgency_levels.length) "" ++ "\n\n" ++ base
          meta := { meta with id := meta.id ++ "_voice_followup_" ++ toString (i + 1) } }
        :: voiceFollowAux base meta (t + 3) (i + 1) k := rfl
    rw [hcons] at h
    cases j with
    | zero =>
      rw [List.getElem?_cons_zero] at h
      obtain rfl := Option.some.inj h
      refine ⟨by norm_num, by norm_num, by norm_num⟩
    | succ j' =>
      rw [List.getElem?_cons_succ] at h
      obtain ⟨h1, h2, h3⟩ := ih (t + 3) (i + 1) j' fu h
      refine ⟨by omega, ?_, ?_⟩
      · rw [show i + 1 + j' = i + (j' + 1) from by omega] at h2
        exact h2
      · rw [show i + 1 + j' + 1 = i + (j' + 1) + 1 from by omega] at h3
        exact h3

theorem plainFollowAux_get (base : String) (meta : EscMeta) :
    ∀ k t i j fu, (plainFollowAux base meta t i k)[j]? = some fu →
      fu.time = t + 5 * (j + 1) ∧
      fu.message = "🔴 URGENT: " ++ base ∧
      fu.meta = { meta with id := meta.id ++ "_followup_" ++ toString (i + j + 1) } := by
  intro k
  induction k with
  | zero => intro t i j fu h; cases h
  | succ k ih =>
    intro t i j fu h
    have hcons : plainFollowAux base meta t i (k + 1) =
        { time := t + 5
          message := "🔴 URGENT: " ++ base
          meta := { meta with id := meta.id ++ "_followup_" ++ toString (i + 1) } }
        :: plainFollowAux base meta (t + 5) (i + 1) k := rfl
    rw [hcons] at h
    cases j with
    | zero =>
      rw [List.getElem?_cons_zero] at h
      obtain rfl := Option.some.inj h
      refine ⟨by norm_num, rfl, by norm_num⟩
    | succ j' =>
      rw [List.getElem?_cons_succ] at h
      obtain ⟨h1, h2, h3⟩ := ih (t + 5) (i + 1) j' fu h
      refine ⟨by omega, h2, ?_⟩
      rw [show i + 1 + j' + 1 = i + (j' + 1) + 1 from by omega] at h3
      exact h3

/-! ## Claims C3, C4, C5, C6 -/

/-- **C3** (corrected).  Only the voice escalation prepends labels from the
cyclic 4-entry urgency list; the plain (v1) escalation — the very profile
with interval 5 s and cap 6 that the claim's example names — prepends the
same fixed `"🔴 URGENT: "` label to every follow-up.  Concretely, for
duration 30 s the plain job emits 6 follow-ups whose messages are all
identical and equal to none of the claimed label-prefixed forms. -/
theorem c3_counterexample :
    (_send_persistent_notifications 30 "SIGNAL" sampleMeta).length = 6 ∧
    (_send_persistent_notifications 30 "SIGNAL" sampleMeta).map FollowUp.message =
      List.replicate 6 "🔴 URGENT: SIGNAL" ∧
    (urgency_levels.all fun L =>
      ("🔴 URGENT: SIGNAL" : String) != L ++ "\n\n" ++ "SIGNAL") = true := by decide

/-- **C3** (amended).  Each escalation job emits exactly
`min(duration // interval, cap)` follow-ups — interval 3 s with cap 8 for
the voice profile, interval 5 s with cap 6 for the plain profile — with
follow-up number `j+1` delivered `interval × (j+1)` seconds after the
initial delivery (so consecutive follow-ups are `interval` seconds apart).
The voice follow-up message prepends the urgency label
`urgency_levels[j % 4]` (cycling through the fixed 4-entry list); the plain
follow-up message prepends the fixed label `"🔴 URGENT: "`. -/
theorem c3_amended (duration : Nat) (base : String) (meta : EscMeta) :
    (_send_voice_persistent_notifications duration base meta).length =
      min (duration / 3) 8 ∧
    (_send_persistent_notifications duration base meta).length =
      min (duration / 5) 6 ∧
    (∀ j fu, (_send_voice_persistent_notifications duration base meta)[j]? = some fu →
      fu.time = 3 * (j + 1) ∧
      fu.message = urgency_levels.getD (j % urgency_levels.length) "" ++ "\n\n" ++ base) ∧
    (∀ j fu, (_send_persistent_notifications duration base meta)[j]? = some fu →
      fu.time = 5 * (j + 1) ∧
      fu.message = "🔴 URGENT: " ++ base) := by
  refine ⟨voiceFollowAux_length base meta _ 0 0, plainFollowAux_length base meta _ 0 0,
    ?_, ?_⟩
  · intro j fu h
    obtain ⟨h1, h2, _⟩ := voiceFollowAux_get base meta _ 0 0 j fu h
    rw [Nat.zero_add] at h1 h2
    exact ⟨h1, h2⟩
  · intro j fu h
    obtain ⟨h1, h2, _⟩ := plainFollowAux_get base meta _ 0 0 j fu h
    rw [Nat.zero_add] at h1
    exact ⟨h1, h2⟩

theorem c3_witness :
    (_send_voice_persistent_notifications 30 "B" sampleMeta).length = 8 ∧
    (_send_persistent_notifications 30 "B" sampleMeta).length = 6 ∧
    (({ time := 15
        message := "🚨 URGENT FOREX ALERT 🚨\n\nB"
        meta := { sampleMeta with id := "MSG_voice_followup_5" } } : FollowUp).time =
      3 * (4 + 1) ∧
     ({ time := 15
        message := "🚨 URGENT FOREX ALERT 🚨\n\nB"
        meta := { sampleMeta with id := "MSG_voice_followup_5" } } : FollowUp).message =
      urgency_levels.getD (4 % urgency_levels.length) "" ++ "\n\n" ++ "B") ∧
    (({ time := 10
        message := "🔴 URGENT: B"
        meta := { sampleMeta with id := "MSG_followup_2" } } : FollowUp).time = 5 * (1 + 1) ∧
     ({ time := 10
        message := "🔴 URGENT: B"
        meta := { sampleMeta with id := "MSG_followup_2" } } : FollowUp).message =
      "🔴 URGENT: " ++ "B") :=
  ⟨(c3_amended 30 "B" sampleMeta).1,
   (c3_amended 30 "B" sampleMeta).2.1,
   (c3_amended 30 "B" sampleMeta).2.2.1 4 _ (by decide),
   (c3_amended 30 "B" sampleMeta).2.2.2 1 _ (by decide)⟩

/-- **C4** (corrected).  Only the plain (v1) follow-ups carry the id
`"<base_id>_followup_<n>"`; the voice follow-ups use
`"<base_id>_voice_followup_<n>"` instead, so the claimed id format fails
for the voice escalation jobs. -/
theorem c4_counterexample :
    ((_send_voice_persistent_notifications 30 "FOREX" sampleMeta)[0]?.map
      fun fu => fu.meta.id) = some "MSG_voice_followup_1" ∧
    ("MSG_voice_followup_1" : String) ≠ "MSG_followup_1" := by decide

/-- **C4** (amended).  Follow-up number `j+1` of an escalation job copies
every metadata field of the base metadata except the id, which equals
`"<base_id>_followup_<j+1>"` for the plain (v1) job and
`"<base_id>_voice_followup_<j+1>"` for the voice job. -/
theorem c4_amended (duration : Nat) (base : String) (meta : EscMeta) (j : Nat) :
    (∀ fu, (_send_persistent_notifications duration base meta)[j]? = some fu →
      fu.meta = { meta with id := meta.id ++ "_followup_" ++ toString (j + 1) }) ∧
    (∀ fu, (_send_voice_persistent_notifications duration base meta)[j]? = some fu →
      fu.meta = { meta with id := meta.id ++ "_voice_followup_" ++ toString (j + 1) }) := by
  constructor
  · intro fu h
    obtain ⟨_, _, h3⟩ := plainFollowAux_get base meta _ 0 0 j fu h
    rw [Nat.zero_add] at h3
    exact h3
  · intro fu h
    obtain ⟨_, _, h3⟩ := voiceFollowAux_get base meta _ 0 0 j fu h
    rw [Nat.zero_add] at h3
    exact h3

theorem c4_witness :
    ({ time := 15
       message := "🔴 URGENT: S"
       meta := { sampleMeta with id := "MSG_followup_3" } } : FollowUp).meta =
      { sampleMeta with id := sampleMeta.id ++ "_followup_" ++ toString (2 + 1) } :=
  (c4_amended 30 "S" sampleMeta 2).1 _ (by decide)

/-- **C5** (corrected).  Only the voice notifier (`FCMNotifier`) restricts
escalation to delivered messages whose text contains the `FOREX`/`TRADE`
marker (case-insensitive) with duration above 5 s; the v1 notifier
(`FCMv1Notifier`) schedules follow-ups after *any* successful delivery with
duration above 5 s, marker or not — e.g. for the marker-free message
`"hello there"`. -/
theorem c5_counterexample :
    v1_schedules_followups 30 "hello there" = true ∧
    marker_present "hello there" = false := by decide

/-- **C5** (amended).  After a successful initial delivery, the voice
notifier schedules follow-ups iff the duration exceeds 5 s and the
formatted text contains `"FOREX"` or `"TRADE"` (case-insensitive), while
the v1 notifier schedules follow-ups iff the duration exceeds 5 s,
regardless of the message content. -/
theorem c5_amended (duration : Nat) (msg : String) :
    (voice_schedules_followups duration msg = true ↔
      5 < duration ∧ marker_present msg = true) ∧
    (v1_schedules_followups duration msg = true ↔ 5 < duration) := by
  constructor
  · simp [voice_schedules_followups, Bool.and_eq_true, decide_eq_true_eq]
  · simp [v1_schedules_followups, decide_eq_true_eq]

theorem escLoopAttempts_catchEach (f : Nat → DeliveryOutcome) :
    ∀ k i, escLoopAttempts true f i k = List.range' i k := by
  intro k
  induction k with
  | zero => intro i; rfl
  | succ k ih =>
    intro i
    show (match f i, true with
      | .exn, false => [i]
      | _, _ => i :: escLoopAttempts true f (i + 1) k) = List.range' i (k + 1)
    cases f i <;> simp [ih, List.range'_succ]

theorem escLoopAttempts_noExn (f : Nat → DeliveryOutcome)
    (hf : ∀ j, f j ≠ DeliveryOutcome.exn) :
    ∀ k i, escLoopAttempts false f i k = List.range' i k := by
  intro k
  induction k with
  | zero => intro i; rfl
  | succ k ih =>
    intro i
    show (match f i, false with
      | .exn, false => [i]
      | _, _ => i :: escLoopAttempts false f (i + 1) k) = List.range' i (k + 1)
    cases hfi : f i with
    | exn => exact absurd hfi (hf i)
    | ok => simp [ih, List.range'_succ]
    | httpFail => simp [ih, List.range'_succ]

/-- **C6** (corrected).  Per-attempt independence holds for the v1
escalation loop (its `try/except` wraps each single follow-up send), but
the voice escalation loop wraps the *whole* loop in one `try/except`: a
follow-up attempt that raises aborts every remaining follow-up of that
job.  With 2 scheduled voice follow-ups and the first attempt raising,
only attempt 0 is made and attempt 1 is never attempted. -/
theorem c6_counterexample :
    voiceAttempted (fun _ => DeliveryOutcome.exn) 2 = [0] ∧
    (1 : Nat) ∉ voiceAttempted (fun _ => DeliveryOutcome.exn) 2 ∧
    (1 : Nat) ∈ List.range 2 := by decide

/-- **C6** (amended).  In the v1 escalation every scheduled follow-up is
attempted no matter how earlier attempts end (failures and exceptions are
caught per attempt); in the voice escalation the same holds provided no
attempt raises — a non-200 delivery failure never cancels the rest in
either loop, but a raised exception aborts the remaining voice follow-ups. -/
theorem c6_amended (f : Nat → DeliveryOutcome) (n : Nat) :
    v1Attempted f n = List.range n ∧
    ((∀ i, f i ≠ DeliveryOutcome.exn) → voiceAttempted f n = List.range n) := by
  constructor
  · rw [show v1Attempted f n = escLoopAttempts true f 0 n from rfl,
      escLoopAttempts_catchEach, List.range_eq_range']
  · intro hf
    rw [show voiceAttempted f n = escLoopAttempts false f 0 n from rfl,
      escLoopAttempts_noExn f hf, List.range_eq_range']

theorem c6_witness :
    voiceAttempted (fun _ => DeliveryOutcome.httpFail) 3 = List.range 3 :=
  (c6_amended (fun _ => DeliveryOutcome.httpFail) 3).2 fun _ => by decide

/-! ## Claim C7: the formatted-summary round trip

The counterexample: a valid signal whose instrument came from the generic
three-letters/separator/three-letters fallback.  Its summary embeds the
instrument with no separator, so the fallback cannot re-detect it, and the
leftmost generic match inside the upper-cased summary is the `"TOP LOS"` of
`"STOP LOSS:"`. -/

/-- **C7** (corrected).  `"ABC/XYZ BUY SL 1.2"` yields a valid signal with
instrument `"ABCXYZ"`; re-running instrument extraction on its formatted
summary returns `"TOPLOS"` instead. -/
theorem c7_counterexample :
    (extract_trading_signal "ABC/XYZ BUY SL 1.2").is_valid_signal = true ∧
    (extract_trading_signal "ABC/XYZ BUY SL 1.2").instrument = some "ABCXYZ" ∧
    _extract_instrument (upperChars
      (format_signal_summary (extract_trading_signal "ABC/XYZ BUY SL 1.2")).toList) =
      some "TOPLOS" ∧
    ("TOPLOS" : String) ≠ "ABCXYZ" := by decide

/-! ### Character sets of the rendered pieces -/

theorem digitChar_mem (n : Nat) : digitChar n ∈ digitChars := by
  unfold digitChar
  rw [List.getD_eq_getElem?_getD]
  cases h : digitChars[n]? with
  | some c =>
    simp only [Option.getD_some]
    exact List.getElem?_mem h
  | none =>
    simp only [Option.getD_none]
    decide

theorem natDigitsAux_charset : ∀ fuel n, ∀ c ∈ natDigitsAux fuel n, c ∈ digitChars := by
  intro fuel
  induction fuel with
  | zero => intro n c hc; cases hc
  | succ fuel ih =>
    intro n c hc
    unfold natDigitsAux at hc
    split at hc
    · rw [List.mem_singleton] at hc
      exact hc ▸ digitChar_mem n
    · rw [List.mem_append, List.mem_singleton] at hc
      cases hc with
      | inl h => exact ih _ c h
      | inr h => exact h ▸ digitChar_mem _

theorem natDigits_charset (n : Nat) : ∀ c ∈ natDigits n, c ∈ digitChars :=
  natDigitsAux_charset (n + 1) n

theorem padDigits_charset : ∀ k m, ∀ c ∈ padDigits k m, c ∈ digitChars := by
  intro k
  induction k with
  | zero => intro m c hc; cases hc
  | succ k ih =>
    intro m c hc
    unfold padDigits at hc
    rw [List.mem_append, List.mem_singleton] at hc
    cases hc with
    | inl h => exact ih _ c h
    | inr h => exact h ▸ digitChar_mem _

theorem renderQ_charset (q : ℚ) : ∀ c ∈ renderQ q, c ∈ numChars := by
  intro c hc
  unfold renderQ at hc
  rw [List.mem_append, List.mem_cons] at hc
  rcases hc with h | h | h
  · exact List.mem_append.mpr (Or.inl (natDigits_charset _ c h))
  · rw [h]; decide
  · exact List.mem_append.mpr (Or.inl (padDigits_charset _ _ c h))

theorem renderQ_ne_nil (q : ℚ) : renderQ q ≠ [] := by
  unfold renderQ
  simp

theorem renderQ_head {q : ℚ} {c : Char} (h : (renderQ q).head? = some c) : c ∈ numChars := by
  exact renderQ_charset q c (List.mem_of_mem_head? h)

theorem renderFixed1_charset (q : ℚ) : ∀ c ∈ renderFixed1 q, c ∈ numChars := by
  intro c hc
  unfold renderFixed1 at hc
  rw [List.mem_append, List.mem_cons, List.mem_singleton] at hc
  rcases hc with h | h | h
  · exact List.mem_append.mpr (Or.inl (natDigits_charset _ c h))
  · rw [h]; decide
  · exact List.mem_append.mpr (Or.inl (h ▸ digitChar_mem _))

theorem joinComma_charset : ∀ l : List ℚ, ∀ c ∈ joinComma l,
    c ∈ numChars ++ [',', ' '] := by
  intro l
  induction l with
  | nil => intro c hc; cases hc
  | cons q rest ih =>
    intro c hc
    cases rest with
    | nil =>
      exact List.mem_append.mpr (Or.inl (renderQ_charset q c hc))
    | cons q' rest' =>
      rw [show joinComma (q :: q' :: rest') =
        renderQ q ++ ',' :: ' ' :: joinComma (q' :: rest') from rfl] at hc
      rw [List.mem_append, List.mem_cons, List.mem_cons] at hc
      rcases hc with h | h | h | h
      · exact List.mem_append.mpr (Or.inl (renderQ_charset q c h))
      · rw [h]; decide
      · rw [h]; decide
      · exact ih c h

theorem joinComma_head {l : List ℚ} {c : Char} (hne : l ≠ [])
    (h : (joinComma l).head? = some c) : c ∈ numChars := by
  cases l with
  | nil => exact absurd rfl hne
  | cons q rest =>
    cases rest with
    | nil => exact renderQ_head h
    | cons q' rest' =>
      rw [show joinComma (q :: q' :: rest') =
        renderQ q ++ ',' :: ' ' :: joinComma (q' :: rest') from rfl,
        List.head?_append] at h
      cases hq : (renderQ q).head? with
      | some d =>
        rw [hq] at h
        exact (Option.some.inj h) ▸ renderQ_head hq
      | none =>
        exact absurd (List.head?_eq_none_iff.mp hq) (renderQ_ne_nil q)

/-! ### Character sets of the needles -/

theorem not_mem_of_pred {v : Chars} {c : Char} (P : Char → Bool)
    (hall : ∀ x ∈ v, P x = true) (hc : P c = false) : c ∉ v := by
  intro hmem
  rw [hall c hmem] at hc
  cases hc

theorem variant_chars : ∀ p ∈ forex_pairs, ∀ v ∈ pairVariants p, ∀ c ∈ v.toList,
    (isUpperAZ c || c = '/' || c = '-' || c = ' ') = true := by decide

theorem variant_letters : ∀ p ∈ forex_pairs, ∀ v ∈ pairVariants p,
    v.toList.countP isUpperAZ = 6 := by decide

theorem variant_ne_nil : ∀ p ∈ forex_pairs, ∀ v ∈ pairVariants p, v.toList ≠ [] := by decide

theorem variant_length : ∀ p ∈ forex_pairs, ∀ v ∈ pairVariants p,
    v.toList.length = 6 ∨ v.toList.length = 7 := by decide

theorem numChars_not_variantChar : ∀ c ∈ numChars,
    (isUpperAZ c || c = '/' || c = '-' || c = ' ') = false := by decide

theorem numChars_no_letter : ∀ c ∈ numChars, isUpperAZ c = false := by decide

theorem rrChars_no_letter : ∀ c ∈ rrChars, isUpperAZ c = false := by decide

theorem rrChars_not_variantChar : ∀ c ∈ rrChars,
    (isUpperAZ c || c = '/' || c = '-' || c = ' ') = false := by decide

/-! ### Character sets of the extracted auxiliary strings -/

theorem toList_mk (l : Chars) : (String.mk l).toList = l := rfl

theorem isDigitC_mem {c : Char} (h : isDigitC c = true) : c ∈ digitChars := by
  unfold isDigitC at h
  exact List.mem_of_elem_eq_true h

theorem digit_mem_of_takeWhile {l : Chars} {c : Char}
    (h : c ∈ l.takeWhile isDigitC) : c ∈ digitChars :=
  isDigitC_mem (List.mem_takeWhile_imp h)

theorem digitChars_no_letter : ∀ c ∈ digitChars, isUpperAZ c = false := by decide

theorem countP_takeWhile_digits (l : Chars) :
    (l.takeWhile isDigitC).countP isUpperAZ = 0 :=
  List.countP_eq_zero.mpr fun c hc => by
    simp [digitChars_no_letter c (digit_mem_of_takeWhile hc)]

theorem digit_mem_numChars {c : Char} (h : c ∈ digitChars) : c ∈ numChars :=
  List.mem_append.mpr (Or.inl h)

theorem matchNumber_capture {l cap rest : Chars}
    (h : matchNumber l = some (cap, rest)) : ∀ c ∈ cap, c ∈ numChars := by
  unfold matchNumber at h
  simp only [List.span_eq_take_drop] at h
  split at h
  next => cases h
  next =>
    split at h
    next r2 =>
      obtain ⟨hcap, -⟩ := Prod.mk.inj (Option.some.inj h)
      intro c hc
      rw [← hcap, List.mem_append, List.mem_cons] at hc
      rcases hc with h1 | h1 | h1
      · exact digit_mem_numChars (digit_mem_of_takeWhile h1)
      · rw [h1]; decide
      · exact digit_mem_numChars (digit_mem_of_takeWhile h1)
    next =>
      obtain ⟨hcap, -⟩ := Prod.mk.inj (Option.some.inj h)
      intro c hc
      rw [← hcap] at hc
      exact digit_mem_numChars (digit_mem_of_takeWhile hc)

theorem numberCandidates_mem {l g r : Chars}
    (h : (g, r) ∈ numberCandidates l) : ∀ c ∈ g, c ∈ numChars := by
  unfold numberCandidates at h
  simp only [List.span_eq_take_drop] at h
  split at h
  next => cases h
  next =>
    have hhead : ∀ j : Nat,
        ∀ c ∈ (l.takeWhile isDigitC).take (j + 1), c ∈ numChars := fun j c hc =>
      digit_mem_numChars (digit_mem_of_takeWhile (List.mem_of_mem_take hc))
    split at h
    next r2 =>
      rw [List.mem_append] at h
      cases h with
      | inl h =>
        obtain ⟨k, -, hk⟩ := List.mem_map.mp h
        obtain ⟨hg, -⟩ := Prod.mk.inj hk
        intro c hc
        rw [← hg, List.mem_append, List.mem_cons] at hc
        rcases hc with h1 | h1 | h1
        · exact digit_mem_numChars (digit_mem_of_takeWhile h1)
        · rw [h1]; decide
        · exact digit_mem_numChars (digit_mem_of_takeWhile (List.mem_of_mem_take h1))
      | inr h =>
        obtain ⟨j, -, hj⟩ := List.mem_map.mp h
        obtain ⟨hg, -⟩ := Prod.mk.inj hj
        intro c hc
        rw [← hg] at hc
        exact hhead j c hc
    next =>
      obtain ⟨j, -, hj⟩ := List.mem_map.mp h
      obtain ⟨hg, -⟩ := Prod.mk.inj hj
      intro c hc
      rw [← hg] at hc
      exact hhead j c hc

theorem rrAt_captures {l : Chars} {g1 g2 : Chars} (h : rrAt l = some (g1, g2)) :
    (∀ c ∈ g1, c ∈ numChars) ∧ ∀ c ∈ g2, c ∈ numChars := by
  unfold rrAt at h
  obtain ⟨alt, -, hv⟩ := List.exists_of_findSome?_eq_some h
  rw [Option.bind_eq_some] at hv
  obtain ⟨r1, -, hv2⟩ := hv
  obtain ⟨cand, hcand_mem, hcand⟩ := List.exists_of_findSome?_eq_some hv2
  obtain ⟨c1, c2⟩ := cand
  rw [Option.map_eq_some'] at hcand
  obtain ⟨⟨g2', rest⟩, hm, heq⟩ := hcand
  obtain ⟨hg1, hg2⟩ := Prod.mk.inj heq
  constructor
  · exact hg1 ▸ numberCandidates_mem hcand_mem
  · exact hg2 ▸ matchNumber_capture hm

theorem numChars_sub_rrChars : ∀ c ∈ numChars, c ∈ rrChars := by decide

theorem renderFixed1_rrChars (q : ℚ) : ∀ c ∈ renderFixed1 q, c ∈ rrChars :=
  fun c hc => numChars_sub_rrChars c (renderFixed1_charset q c hc)

theorem rr_charset {t : Chars} {s : String} (h : _calculate_risk_reward t = some s) :
    ∀ c ∈ s.toList, c ∈ rrChars := by
  unfold _calculate_risk_reward at h
  split at h
  next g1 g2 heq =>
    obtain rfl := Option.some.inj h
    obtain ⟨l', hl'⟩ := scanFirst_eq_some heq
    obtain ⟨h1, h2⟩ := rrAt_captures hl'
    intro c hc
    rw [toList_mk, List.mem_append, List.mem_cons] at hc
    rcases hc with hc | hc | hc
    · exact numChars_sub_rrChars c (h1 c hc)
    · rw [hc]; decide
    · exact numChars_sub_rrChars c (h2 c hc)
  next =>
    split at h
    next entry stop_loss =>
      dsimp only [] at h
      split at h
      next =>
        split at h
        next =>
          obtain rfl := Option.some.inj h
          intro c hc
          rw [toList_mk, List.mem_cons, List.mem_cons] at hc
          rcases hc with hc | hc | hc
          · rw [hc]; decide
          · rw [hc]; decide
          · exact renderFixed1_rrChars _ c hc
        next => cases h
      next => cases h
    next => cases h

theorem mem_tfChars_digits {l : Chars} {c : Char} (h : c ∈ l.takeWhile isDigitC) :
    c ∈ tfChars :=
  List.mem_append.mpr (Or.inl (digit_mem_of_takeWhile h))

theorem tfNumM_shape {l : Chars} {s : String} (h : tfNumM l = some s) :
    (∀ c ∈ s.toList, c ∈ tfChars) ∧ s.toList.countP isUpperAZ ≤ 4 := by
  unfold tfNumM at h
  simp only [List.span_eq_take_drop] at h
  split at h
  next => cases h
  next =>
    split at h
    next =>
      obtain rfl := Option.some.inj h
      refine ⟨fun c hc => ?_, ?_⟩
      · rw [toList_mk, List.mem_append] at hc
        rcases hc with h1 | h1
        · exact mem_tfChars_digits h1
        · simp only [List.mem_cons, List.not_mem_nil, or_false] at h1
          rcases h1 with rfl | rfl | rfl <;> decide
      · rw [toList_mk, List.countP_append, countP_takeWhile_digits]
        decide
    next =>
      obtain rfl := Option.some.inj h
      refine ⟨fun c hc => ?_, ?_⟩
      · rw [toList_mk, List.mem_append] at hc
        rcases hc with h1 | h1
        · exact mem_tfChars_digits h1
        · simp only [List.mem_cons, List.not_mem_nil, or_false] at h1
          rcases h1 with rfl
          decide
      · rw [toList_mk, List.countP_append, countP_takeWhile_digits]
        decide
    next => cases h

theorem tfNumH_shape {l : Chars} {s : String} (h : tfNumH l = some s) :
    (∀ c ∈ s.toList, c ∈ tfChars) ∧ s.toList.countP isUpperAZ ≤ 4 := by
  unfold tfNumH at h
  simp only [List.span_eq_take_drop] at h
  split at h
  next => cases h
  next =>
    split at h
    next =>
      obtain rfl := Option.some.inj h
      refine ⟨fun c hc => ?_, ?_⟩
      · rw [toList_mk, List.mem_append] at hc
        rcases hc with h1 | h1
        · exact mem_tfChars_digits h1
        · simp only [List.mem_cons, List.not_mem_nil, or_false] at h1
          rcases h1 with rfl | rfl <;> decide
      · rw [toList_mk, List.countP_append, countP_takeWhile_digits]
        decide
    next =>
      obtain rfl := Option.some.inj h
      refine ⟨fun c hc => ?_, ?_⟩
      · rw [toList_mk, List.mem_append] at hc
        rcases hc with h1 | h1
        · exact mem_tfChars_digits h1
        · simp only [List.mem_cons, List.not_mem_nil, or_false] at h1
          rcases h1 with rfl
          decide
      · rw [toList_mk, List.countP_append, countP_takeWhile_digits]
        decide
    next => cases h

theorem tfNumD_shape {l : Chars} {s : String} (h : tfNumD l = some s) :
    (∀ c ∈ s.toList, c ∈ tfChars) ∧ s.toList.countP isUpperAZ ≤ 4 := by
  unfold tfNumD at h
  simp only [List.span_eq_take_drop] at h
  split at h
  next => cases h
  next =>
    split at h
    next =>
      obtain rfl := Option.some.inj h
      refine ⟨fun c hc => ?_, ?_⟩
      · rw [toList_mk, List.mem_append] at hc
        rcases hc with h1 | h1
        · exact mem_tfChars_digits h1
        · simp only [List.mem_cons, List.not_mem_nil, or_false] at h1
          rcases h1 with rfl | rfl | rfl <;> decide
      · rw [toList_mk, List.countP_append, countP_takeWhile_digits]
        decide
    next =>
      obtain rfl := Option.some.inj h
      refine ⟨fun c hc => ?_, ?_⟩
      · rw [toList_mk, List.mem_append] at hc
        rcases hc with h1 | h1
        · exact mem_tfChars_digits h1
        · simp only [List.mem_cons, List.not_mem_nil, or_false] at h1
          rcases h1 with rfl
          decide
      · rw [toList_mk, List.countP_append, countP_takeWhile_digits]
        decide
    next => cases h

theorem tfNumW_shape {l : Chars} {s : String} (h : tfNumW l = some s) :
    (∀ c ∈ s.toList, c ∈ tfChars) ∧ s.toList.countP isUpperAZ ≤ 4 := by
  unfold tfNumW at h
  simp only [List.span_eq_take_drop] at h
  split at h
  next => cases h
  next =>
    split at h
    next =>
      obtain rfl := Option.some.inj h
      refine ⟨fun c hc => ?_, ?_⟩
      · rw [toList_mk, List.mem_append] at hc
        rcases hc with h1 | h1
        · exact mem_tfChars_digits h1
        · simp only [List.mem_cons, List.not_mem_nil, or_false] at h1
          rcases h1 with rfl | rfl | rfl | rfl <;> decide
      · rw [toList_mk, List.countP_append, countP_takeWhile_digits]
        decide
    next =>
      obtain rfl := Option.some.inj h
      refine ⟨fun c hc => ?_, ?_⟩
      · rw [toList_mk, List.mem_append] at hc
        rcases hc with h1 | h1
        · exact mem_tfChars_digits h1
        · simp only [List.mem_cons, List.not_mem_nil, or_false] at h1
          rcases h1 with rfl
          decide
      · rw [toList_mk, List.countP_append, countP_takeWhile_digits]
        decide
    next => cases h

theorem tfMNum_shape {l : Chars} {s : String} (h : tfMNum l = some s) :
    (∀ c ∈ s.toList, c ∈ tfChars) ∧ s.toList.countP isUpperAZ ≤ 4 := by
  unfold tfMNum at h
  split at h
  next rest =>
    simp only [List.span_eq_take_drop] at h
    split at h
    next => cases h
    next =>
      obtain rfl := Option.some.inj h
      refine ⟨fun c hc => ?_, ?_⟩
      · rw [toList_mk, List.mem_cons] at hc
        rcases hc with rfl | h1
        · decide
        · exact mem_tfChars_digits h1
      · rw [toList_mk, List.countP_cons, countP_takeWhile_digits]
        decide
  next => cases h

theorem tfHNum_shape {l : Chars} {s : String} (h : tfHNum l = some s) :
    (∀ c ∈ s.toList, c ∈ tfChars) ∧ s.toList.countP isUpperAZ ≤ 4 := by
  unfold tfHNum at h
  split at h
  next rest =>
    simp only [List.span_eq_take_drop] at h
    split at h
    next => cases h
    next =>
      obtain rfl := Option.some.inj h
      refine ⟨fun c hc => ?_, ?_⟩
      · rw [toList_mk, List.mem_cons] at hc
        rcases hc with rfl | h1
        · decide
        · exact mem_tfChars_digits h1
      · rw [toList_mk, List.countP_cons, countP_takeWhile_digits]
        decide
  next => cases h

theorem tfDNum_shape {l : Chars} {s : String} (h : tfDNum l = some s) :
    (∀ c ∈ s.toList, c ∈ tfChars) ∧ s.toList.countP isUpperAZ ≤ 4 := by
  unfold tfDNum at h
  split at h
  next rest =>
    simp only [List.span_eq_take_drop] at h
    split at h
    next => cases h
    next =>
      obtain rfl := Option.some.inj h
      refine ⟨fun c hc => ?_, ?_⟩
      · rw [toList_mk, List.mem_cons] at hc
        rcases hc with rfl | h1
        · decide
        · exact mem_tfChars_digits h1
      · rw [toList_mk, List.countP_cons, countP_takeWhile_digits]
        decide
  next => cases h

theorem tf_shape {t : Chars} {s : String} (h : _extract_timeframe t = some s) :
    (∀ c ∈ s.toList, c ∈ tfChars) ∧ s.toList.countP isUpperAZ ≤ 4 := by
  unfold _extract_timeframe at h
  split at h
  next heq =>
    obtain rfl := Option.some.inj h
    obtain ⟨l', hl'⟩ := scanFirst_eq_some heq
    exact tfNumM_shape hl'
  next =>
    split at h
    next heq =>
      obtain rfl := Option.some.inj h
      obtain ⟨l', hl'⟩ := scanFirst_eq_some heq
      exact tfNumH_shape hl'
    next =>
      split at h
      next heq =>
        obtain rfl := Option.some.inj h
        obtain ⟨l', hl'⟩ := scanFirst_eq_some heq
        exact tfNumD_shape hl'
      next =>
        split at h
        next heq =>
          obtain rfl := Option.some.inj h
          obtain ⟨l', hl'⟩ := scanFirst_eq_some heq
          exact tfNumW_shape hl'
        next =>
          split at h
          next heq =>
            obtain rfl := Option.some.inj h
            obtain ⟨l', hl'⟩ := scanFirst_eq_some heq
            exact tfMNum_shape hl'
          next =>
            split at h
            next heq =>
              obtain rfl := Option.some.inj h
              obtain ⟨l', hl'⟩ := scanFirst_eq_some heq
              exact tfHNum_shape hl'
            next =>
              obtain ⟨l', hl'⟩ := scanFirst_eq_some h
              exact tfDNum_shape hl'

/-! ### Upper-casing the summary -/

theorem upperChars_append (a b : Chars) :
    upperChars (a ++ b) = upperChars a ++ upperChars b :=
  List.map_append _ a b

theorem upperChars_fix {l : Chars} (h : ∀ c ∈ l, c.toUpper = c) : upperChars l = l := by
  unfold upperChars
  conv_rhs => rw [← List.map_id l]
  exact List.map_congr_left h

theorem numChars_toUpper : ∀ c ∈ numChars, c.toUpper = c := by decide

theorem rrChars_toUpper : ∀ c ∈ rrChars, c.toUpper = c := by decide

theorem tfChars_toUpper : ∀ c ∈ tfChars, c.toUpper = c := by decide

theorem upperChars_renderQ (q : ℚ) : upperChars (renderQ q) = renderQ q :=
  upperChars_fix fun c hc => numChars_toUpper c (renderQ_charset q c hc)

theorem upperChars_joinComma (l : List ℚ) : upperChars (joinComma l) = joinComma l :=
  upperChars_fix fun c hc => by
    have := joinComma_charset l c hc
    rw [List.mem_append] at this
    rcases this with h1 | h1
    · exact numChars_toUpper c h1
    · simp only [List.mem_cons, List.not_mem_nil, or_false] at h1
      rcases h1 with rfl | rfl <;> decide

theorem upperChars_natDigits (n : Nat) : upperChars (natDigits n) = natDigits n :=
  upperChars_fix fun c hc => by
    have := natDigits_charset n c hc
    have h2 := numChars_toUpper c (digit_mem_numChars this)
    exact h2

/-- The upper-cased summary of a valid signal, as a flat list of seven
pieces: the header line, the five optional lines, and the confidence
line. -/
theorem upper_summary_eq (s : TradingSignal) (inst d : String)
    (hinst : s.instrument = some inst) (hinstU : upperChars inst.toList = inst.toList)
    (hdir : s.direction = some d) (hdU : upperChars d.toList = d.toList)
    (hrrU : ∀ rs, s.risk_reward = some rs → upperChars rs.toList = rs.toList)
    (htfU : ∀ ts, s.timeframe = some ts → upperChars ts.toList = ts.toList) :
    upperChars (summaryChars s) =
      List.flatten
        ["📈 **".toList ++ inst.toList ++ "** ".toList ++ d.toList,
         if optQTruthy s.entry_price then
           "\n💰 ENTRY: ".toList ++ renderQ (s.entry_price.getD 0) else [],
         if optQTruthy s.stop_loss then
           "\n🛑 STOP LOSS: ".toList ++ renderQ (s.stop_loss.getD 0) else [],
         if !s.take_profit.isEmpty then
           (if s.take_profit.length = 1 then
             "\n🎯 TAKE PROFIT: ".toList ++ renderQ (s.take_profit.headD 0)
            else "\n🎯 TAKE PROFITS: ".toList ++ joinComma s.take_profit) else [],
         if optStrTruthy s.risk_reward then
           "\n📊 RISK/REWARD: ".toList ++ (s.risk_reward.getD "").toList else [],
         if optStrTruthy s.timeframe then
           "\n⏰ TIMEFRAME: ".toList ++ (s.timeframe.getD "").toList else [],
         "\n🎯 CONFIDENCE: ".toList ++ natDigits (qfloorToNat (qmul s.confidence 100)) ++ ['%']] := by
  have hU1 : upperChars "📈 **".toList = "📈 **".toList := by decide
  have hU2 : upperChars "** ".toList = "** ".toList := by decide
  have hL1 : upperChars "\n💰 Entry: ".toList = "\n💰 ENTRY: ".toList := by decide
  have hL2 : upperChars "\n🛑 Stop Loss: ".toList = "\n🛑 STOP LOSS: ".toList := by decide
  have hL3 : upperChars "\n🎯 Take Profit: ".toList = "\n🎯 TAKE PROFIT: ".toList := by decide
  have hL3' : upperChars "\n🎯 Take Profits: ".toList = "\n🎯 TAKE PROFITS: ".toList := by decide
  have hL4 : upperChars "\n📊 Risk/Reward: ".toList = "\n📊 RISK/REWARD: ".toList := by decide
  have hL5 : upperChars "\n⏰ Timeframe: ".toList = "\n⏰ TIMEFRAME: ".toList := by decide
  have hL6 : upperChars "\n🎯 Confidence: ".toList = "\n🎯 CONFIDENCE: ".toList := by decide
  have hpc : upperChars ['%'] = ['%'] := by decide
  have hinstU' : List.map Char.toUpper inst.data = inst.data := hinstU
  have hdU' : List.map Char.toUpper d.data = d.data := hdU
  unfold summaryChars
  rw [hinst, hdir]
  rcases hrrc : s.risk_reward with - | rs
  · rcases htfc : s.timeframe with - | ts
    · simp only [upperChars_append, apply_ite upperChars, upperChars_renderQ,
        upperChars_joinComma, upperChars_natDigits, hU1, hU2, hL1, hL2, hL3, hL3', hL4,
        hL5, hL6, hpc, hinstU, hdU, Option.getD_some, String.data_append, optStrTruthy,
        List.flatten]
      simp [upperChars, hinstU', hdU', List.append_assoc]
    · have htfU' : List.map Char.toUpper ts.data = ts.data := htfU ts htfc
      simp only [upperChars_append, apply_ite upperChars, upperChars_renderQ,
        upperChars_joinComma, upperChars_natDigits, hU1, hU2, hL1, hL2, hL3, hL3', hL4,
        hL5, hL6, hpc, hinstU, hdU, htfU ts htfc, Option.getD_some, String.data_append,
        optStrTruthy, List.flatten]
      simp [upperChars, hinstU', hdU', htfU', List.append_assoc]
  · rcases htfc : s.timeframe with - | ts
    · have hrrU' : List.map Char.toUpper rs.data = rs.data := hrrU rs hrrc
      simp only [upperChars_append, apply_ite upperChars, upperChars_renderQ,
        upperChars_joinComma, upperChars_natDigits, hU1, hU2, hL1, hL2, hL3, hL3', hL4,
        hL5, hL6, hpc, hinstU, hdU, hrrU rs hrrc, Option.getD_some, String.data_append,
        optStrTruthy, List.flatten]
      simp [upperChars, hinstU', hdU', hrrU', List.append_assoc]
    · have hrrU' : List.map Char.toUpper rs.data = rs.data := hrrU rs hrrc
      have htfU' : List.map Char.toUpper ts.data = ts.data := htfU ts htfc
      simp only [upperChars_append, apply_ite upperChars, upperChars_renderQ,
        upperChars_joinComma, upperChars_natDigits, hU1, hU2, hL1, hL2, hL3, hL3', hL4,
        hL5, hL6, hpc, hinstU, hdU, hrrU rs hrrc, htfU ts htfc, Option.getD_some,
        String.data_append, optStrTruthy, List.flatten]
      simp [upperChars, hinstU', hdU', hrrU', htfU', List.append_assoc]

/-! ### No catalogue pair other than the instrument occurs in the summary -/

theorem pairs_toUpper : ∀ p ∈ forex_pairs, upperChars p.toList = p.toList := by decide

theorem labels_no_pair : ∀ p ∈ forex_pairs, ∀ v ∈ pairVariants p,
    occursIn v.toList "\n💰 ENTRY: ".toList = false ∧
    occursIn v.toList "\n🛑 STOP LOSS: ".toList = false ∧
    occursIn v.toList "\n🎯 TAKE PROFIT: ".toList = false ∧
    occursIn v.toList "\n🎯 TAKE PROFITS: ".toList = false ∧
    occursIn v.toList "\n📊 RISK/REWARD: ".toList = false ∧
    occursIn v.toList "\n⏰ TIMEFRAME:".toList = false ∧
    occursIn v.toList "\n🎯 CONFIDENCE: ".toList = false ∧
    occursIn v.toList "📈 **".toList = false ∧
    occursIn v.toList "**".toList = false ∧
    occursIn v.toList " BUY".toList = false ∧
    occursIn v.toList " SELL".toList = false := by decide

theorem variant_no_other_pair : ∀ p ∈ forex_pairs, ∀ v ∈ pairVariants p,
    ∀ q ∈ forex_pairs, q ≠ p → occursIn v.toList q.toList = false := by decide

theorem joinChars_no_letter : ∀ c ∈ numChars ++ [',', ' '], isUpperAZ c = false := by decide

theorem natDigits_ne_nil (n : Nat) : natDigits n ≠ [] := by
  unfold natDigits natDigitsAux
  split <;> simp

/-- Central non-occurrence lemma: no variant of a catalogue pair `p` other
than the instrument occurs in the upper-cased summary pieces. -/
theorem summary_pieces_no_pair (s : TradingSignal) (inst d : String)
    (hinstmem : inst ∈ forex_pairs)
    (hd : d = "BUY" ∨ d = "SELL")
    (hrrcs : ∀ rs, s.risk_reward = some rs → ∀ c ∈ rs.toList, c ∈ rrChars)
    (htfcs : ∀ ts, s.timeframe = some ts →
      (∀ c ∈ ts.toList, c ∈ tfChars) ∧ ts.toList.countP isUpperAZ ≤ 4)
    (p : String) (hp : p ∈ forex_pairs) (hpne : p ≠ inst)
    (v : String) (hv : v ∈ pairVariants p) :
    occursIn v.toList (List.flatten
        ["📈 **".toList ++ inst.toList ++ "** ".toList ++ d.toList,
         if optQTruthy s.entry_price then
           "\n💰 ENTRY: ".toList ++ renderQ (s.entry_price.getD 0) else [],
         if optQTruthy s.stop_loss then
           "\n🛑 STOP LOSS: ".toList ++ renderQ (s.stop_loss.getD 0) else [],
         if !s.take_profit.isEmpty then
           (if s.take_profit.length = 1 then
             "\n🎯 TAKE PROFIT: ".toList ++ renderQ (s.take_profit.headD 0)
            else "\n🎯 TAKE PROFITS: ".toList ++ joinComma s.take_profit) else [],
         if optStrTruthy s.risk_reward then
           "\n📊 RISK/REWARD: ".toList ++ (s.risk_reward.getD "").toList else [],
         if optStrTruthy s.timeframe then
           "\n⏰ TIMEFRAME: ".toList ++ (s.timeframe.getD "").toList else [],
         "\n🎯 CONFIDENCE: ".toList ++ natDigits (qfloorToNat (qmul s.confidence 100)) ++ ['%']])
      = false := by
  have hchars := variant_chars p hp v hv
  have hletters := variant_letters p hp v hv
  have hvne : v.toList ≠ [] := variant_ne_nil p hp v hv
  obtain ⟨hlE, hlSL, hlTP, hlTPS, hlRR, hlTF, hlCF, hlHD, hlAST, hlBUY, hlSELL⟩ :=
    labels_no_pair p hp v hv
  have hvletter : ∃ c ∈ v.toList, isUpperAZ c = true := by
    rw [← List.countP_pos_iff]
    omega
  -- a character of one of the value alphabets never belongs to the variant
  have hnumv : ∀ c, c ∈ numChars → c ∉ v.toList := fun c hc =>
    not_mem_of_pred _ hchars (numChars_not_variantChar c hc)
  have hrrv : ∀ c, c ∈ rrChars → c ∉ v.toList := fun c hc =>
    not_mem_of_pred _ hchars (rrChars_not_variantChar c hc)
  have hdigv : ∀ c, c ∈ digitChars → c ∉ v.toList := fun c hc =>
    hnumv c (digit_mem_numChars hc)
  have hpictv : '📈' ∉ v.toList := not_mem_of_pred _ hchars (by decide)
  have hnlv : '\n' ∉ v.toList := not_mem_of_pred _ hchars (by decide)
  have hastv : '*' ∉ v.toList := not_mem_of_pred _ hchars (by decide)
  have hcolv : ':' ∉ v.toList := not_mem_of_pred _ hchars (by decide)
  -- heads of all seven pieces are either 📈 or a newline, neither in v
  refine Eq.trans (occursIn_flatten v.toList hvne _ ?_) ?_
  · intro pc hpc c hc
    have hcval : c = '📈' ∨ c = '\n' := by
      simp only [List.mem_cons, List.not_mem_nil, or_false] at hpc
      rcases hpc with rfl | rfl | rfl | rfl | rfl | rfl | rfl
      · exact Or.inl (Option.some.inj hc).symm
      · split at hc
        · exact Or.inr (Option.some.inj hc).symm
        · simp at hc
      · split at hc
        · exact Or.inr (Option.some.inj hc).symm
        · simp at hc
      · split at hc
        · split at hc
          · exact Or.inr (Option.some.inj hc).symm
          · exact Or.inr (Option.some.inj hc).symm
        · simp at hc
      · split at hc
        · exact Or.inr (Option.some.inj hc).symm
        · simp at hc
      · split at hc
        · exact Or.inr (Option.some.inj hc).symm
        · simp at hc
      · exact Or.inr (Option.some.inj hc).symm
    rcases hcval with rfl | rfl
    · exact hpictv
    · exact hnlv
  rw [List.any_eq_false]
  intro pc hpc
  simp only [Bool.not_eq_true]
  simp only [List.mem_cons, List.not_mem_nil, or_false] at hpc
  rcases hpc with rfl | rfl | rfl | rfl | rfl | rfl | rfl
  · -- header piece
    have hsp : ("** ".toList : Chars) = "**".toList ++ " ".toList := by decide
    rw [hsp]
    have hshape : ("📈 **".toList ++ inst.toList ++ ("**".toList ++ " ".toList) ++ d.toList : Chars) =
        "📈 **".toList ++ (inst.toList ++ ("**".toList ++ (" ".toList ++ d.toList))) := by
      simp [List.append_assoc]
    rw [hshape,
      occursIn_append_last _ _ _ hvne (by
        intro c hc
        have hl : ("📈 **".toList : Chars).getLast? = some '*' := by decide
        rw [hl] at hc
        exact (Option.some.inj hc) ▸ hastv),
      hlHD, Bool.false_or,
      occursIn_append_head _ _ _ hvne (by
        intro c hc
        exact (Option.some.inj hc) ▸ hastv),
      variant_no_other_pair p hp v hv inst hinstmem (fun h => hpne h.symm), Bool.false_or,
      occursIn_append_last _ _ _ hvne (by
        intro c hc
        have hl : ("**".toList : Chars).getLast? = some '*' := by decide
        rw [hl] at hc
        exact (Option.some.inj hc) ▸ hastv),
      hlAST, Bool.false_or]
    rcases hd with rfl | rfl
    · have hb : (" ".toList ++ "BUY".toList : Chars) = " BUY".toList := by decide
      rw [hb, hlBUY]
    · have hb : (" ".toList ++ "SELL".toList : Chars) = " SELL".toList := by decide
      rw [hb, hlSELL]
  · -- entry piece
    split
    · rw [occursIn_append_head _ _ _ hvne fun c hc => hnumv c (renderQ_head hc),
        hlE, Bool.false_or]
      exact occursIn_false_of_forbidden isUpperAZ hvletter fun c hc =>
        numChars_no_letter c (renderQ_charset _ c hc)
    · exact occursIn_nil hvne
  · -- stop-loss piece
    split
    · rw [occursIn_append_head _ _ _ hvne fun c hc => hnumv c (renderQ_head hc),
        hlSL, Bool.false_or]
      exact occursIn_false_of_forbidden isUpperAZ hvletter fun c hc =>
        numChars_no_letter c (renderQ_charset _ c hc)
    · exact occursIn_nil hvne
  · -- take-profit piece
    split
    next htp =>
      split
      · rw [occursIn_append_head _ _ _ hvne fun c hc => hnumv c (renderQ_head hc),
          hlTP, Bool.false_or]
        exact occursIn_false_of_forbidden isUpperAZ hvletter fun c hc =>
          numChars_no_letter c (renderQ_charset _ c hc)
      · have htpne : s.take_profit ≠ [] := not_isEmpty_iff.mp htp
        rw [occursIn_append_head _ _ _ hvne fun c hc => hnumv c (joinComma_head htpne hc),
          hlTPS, Bool.false_or]
        exact occursIn_false_of_forbidden isUpperAZ hvletter fun c hc =>
          joinChars_no_letter c (joinComma_charset _ c hc)
    next => exact occursIn_nil hvne
  · -- risk/reward piece
    split
    next hrr =>
      cases hrreq : s.risk_reward with
      | none =>
        rw [hrreq] at hrr
        simp [optStrTruthy] at hrr
      | some rs =>
        rw [hrreq] at hrr
        have hcs := hrrcs rs hrreq
        rw [Option.getD_some,
          occursIn_append_head _ _ _ hvne
            (fun c hc => hrrv c (hcs c (List.mem_of_mem_head? hc))),
          hlRR, Bool.false_or]
        exact occursIn_false_of_forbidden isUpperAZ hvletter fun c hc =>
          rrChars_no_letter c (hcs c hc)
    next => exact occursIn_nil hvne
  · -- timeframe piece
    split
    next htf =>
      cases htfeq : s.timeframe with
      | none =>
        rw [htfeq] at htf
        simp [optStrTruthy] at htf
      | some ts =>
        obtain ⟨hcs, hcount⟩ := htfcs ts htfeq
        have hsp : ("\n⏰ TIMEFRAME: ".toList : Chars) =
            "\n⏰ TIMEFRAME:".toList ++ " ".toList := by decide
        rw [Option.getD_some, hsp, List.append_assoc,
          occursIn_append_last _ _ _ hvne (by
            intro c hc
            have hl : ("\n⏰ TIMEFRAME:".toList : Chars).getLast? = some ':' := by decide
            rw [hl] at hc
            exact (Option.some.inj hc) ▸ hcolv),
          hlTF, Bool.false_or]
        cases hb : occursIn v.toList (" ".toList ++ ts.toList) with
        | false => rfl
        | true =>
          have hle := occursIn_countP_le isUpperAZ hb
          rw [hletters, List.countP_append] at hle
          have h1 : (" ".toList : Chars).countP isUpperAZ = 0 := by decide
          rw [h1] at hle
          omega
    next => exact occursIn_nil hvne
  · -- confidence piece
    rw [List.append_assoc,
      occursIn_append_head _ _ _ hvne (by
        intro c hc
        cases hnd : natDigits (qfloorToNat (qmul s.confidence 100)) with
        | nil => exact absurd hnd (natDigits_ne_nil _)
        | cons d0 rest =>
          rw [hnd] at hc
          refine (Option.some.inj hc) ▸
            hdigv d0 (natDigits_charset (qfloorToNat (qmul s.confidence 100)) d0 ?_)
          rw [hnd]
          exact List.mem_cons_self d0 rest),
      hlCF, Bool.false_or]
    refine occursIn_false_of_forbidden isUpperAZ hvletter fun c hc => ?_
    rw [List.mem_append, List.mem_singleton] at hc
    rcases hc with hc | rfl
    · exact digitChars_no_letter c (natDigits_charset _ c hc)
    · decide

/-! ### No BUY synonym occurs in the summary of a SELL signal -/

theorem marker_chars : ∀ m ∈ buyWords, ∀ c ∈ m.toList, isUpperAZ c = true := by decide

theorem marker_ne_nil : ∀ m ∈ buyWords, m.toList ≠ [] := by decide

theorem marker_letters_pos : ∀ m ∈ buyWords, 0 < m.toList.countP isUpperAZ := by decide

theorem labels_no_marker : ∀ m ∈ buyWords,
    occursIn m.toList "\n💰 ENTRY: ".toList = false ∧
    occursIn m.toList "\n🛑 STOP LOSS: ".toList = false ∧
    occursIn m.toList "\n🎯 TAKE PROFIT: ".toList = false ∧
    occursIn m.toList "\n🎯 TAKE PROFITS: ".toList = false ∧
    occursIn m.toList "\n📊 RISK/REWARD: ".toList = false ∧
    occursIn m.toList "\n⏰ TIMEFRAME:".toList = false ∧
    occursIn m.toList "\n🎯 CONFIDENCE: ".toList = false ∧
    occursIn m.toList "📈 **".toList = false ∧
    occursIn m.toList "**".toList = false ∧
    occursIn m.toList " SELL".toList = false := by decide

theorem marker_no_pair : ∀ m ∈ buyWords, ∀ q ∈ forex_pairs,
    occursIn m.toList q.toList = false := by decide

theorem marker_not_tf : ∀ m ∈ buyWords,
    m.toList.any (fun c => !(decide (c ∈ tfChars) || decide (c = ' '))) = true := by decide

/-- Central non-occurrence lemma, direction side: no BUY synonym occurs in
the upper-cased summary pieces of a SELL signal. -/
theorem summary_pieces_no_buy_marker (s : TradingSignal) (inst : String)
    (hinstmem : inst ∈ forex_pairs)
    (hrrcs : ∀ rs, s.risk_reward = some rs → ∀ c ∈ rs.toList, c ∈ rrChars)
    (htfcs : ∀ ts, s.timeframe = some ts →
      (∀ c ∈ ts.toList, c ∈ tfChars) ∧ ts.toList.countP isUpperAZ ≤ 4)
    (m : String) (hm : m ∈ buyWords) :
    occursIn m.toList (List.flatten
        ["📈 **".toList ++ inst.toList ++ "** ".toList ++ "SELL".toList,
         if optQTruthy s.entry_price then
           "\n💰 ENTRY: ".toList ++ renderQ (s.entry_price.getD 0) else [],
         if optQTruthy s.stop_loss then
           "\n🛑 STOP LOSS: ".toList ++ renderQ (s.stop_loss.getD 0) else [],
         if !s.take_profit.isEmpty then
           (if s.take_profit.length = 1 then
             "\n🎯 TAKE PROFIT: ".toList ++ renderQ (s.take_profit.headD 0)
            else "\n🎯 TAKE PROFITS: ".toList ++ joinComma s.take_profit) else [],
         if optStrTruthy s.risk_reward then
           "\n📊 RISK/REWARD: ".toList ++ (s.risk_reward.getD "").toList else [],
         if optStrTruthy s.timeframe then
           "\n⏰ TIMEFRAME: ".toList ++ (s.timeframe.getD "").toList else [],
         "\n🎯 CONFIDENCE: ".toList ++ natDigits (qfloorToNat (qmul s.confidence 100)) ++ ['%']])
      = false := by
  have hchars := marker_chars m hm
  have hvne : m.toList ≠ [] := marker_ne_nil m hm
  obtain ⟨hlE, hlSL, hlTP, hlTPS, hlRR, hlTF, hlCF, hlHD, hlAST, hlSELL⟩ :=
    labels_no_marker m hm
  have hvletter : ∃ c ∈ m.toList, isUpperAZ c = true :=
    List.countP_pos_iff.mp (marker_letters_pos m hm)
  have hnumv : ∀ c, c ∈ numChars → c ∉ m.toList := fun c hc =>
    not_mem_of_pred _ hchars (numChars_no_letter c hc)
  have hrrv : ∀ c, c ∈ rrChars → c ∉ m.toList := fun c hc =>
    not_mem_of_pred _ hchars (rrChars_no_letter c hc)
  have hdigv : ∀ c, c ∈ digitChars → c ∉ m.toList := fun c hc =>
    not_mem_of_pred _ hchars (digitChars_no_letter c hc)
  have hpictv : '📈' ∉ m.toList := not_mem_of_pred _ hchars (by decide)
  have hnlv : '\n' ∉ m.toList := not_mem_of_pred _ hchars (by decide)
  have hastv : '*' ∉ m.toList := not_mem_of_pred _ hchars (by decide)
  have hcolv : ':' ∉ m.toList := not_mem_of_pred _ hchars (by decide)
  refine Eq.trans (occursIn_flatten m.toList hvne _ ?_) ?_
  · intro pc hpc c hc
    have hcval : c = '📈' ∨ c = '\n' := by
      simp only [List.mem_cons, List.not_mem_nil, or_false] at hpc
      rcases hpc with rfl | rfl | rfl | rfl | rfl | rfl | rfl
      · exact Or.inl (Option.some.inj hc).symm
      · split at hc
        · exact Or.inr (Option.some.inj hc).symm
        · simp at hc
      · split at hc
        · exact Or.inr (Option.some.inj hc).symm
        · simp at hc
      · split at hc
        · split at hc
          · exact Or.inr (Option.some.inj hc).symm
          · exact Or.inr (Option.some.inj hc).symm
        · simp at hc
      · split at hc
        · exact Or.inr (Option.some.inj hc).symm
        · simp at hc
      · split at hc
        · exact Or.inr (Option.some.inj hc).symm
        · simp at hc
      · exact Or.inr (Option.some.inj hc).symm
    rcases hcval with rfl | rfl
    · exact hpictv
    · exact hnlv
  rw [List.any_eq_false]
  intro pc hpc
  simp only [Bool.not_eq_true]
  simp only [List.mem_cons, List.not_mem_nil, or_false] at hpc
  rcases hpc with rfl | rfl | rfl | rfl | rfl | rfl | rfl
  · -- header piece
    have hsp : ("** ".toList : Chars) = "**".toList ++ " ".toList := by decide
    rw [hsp]
    have hshape : ("📈 **".toList ++ inst.toList ++ ("**".toList ++ " ".toList) ++
          "SELL".toList : Chars) =
        "📈 **".toList ++ (inst.toList ++ ("**".toList ++ (" ".toList ++ "SELL".toList))) := by
      simp [List.append_assoc]
    rw [hshape,
      occursIn_append_last _ _ _ hvne (by
        intro c hc
        have hl : ("📈 **".toList : Chars).getLast? = some '*' := by decide
        rw [hl] at hc
        exact (Option.some.inj hc) ▸ hastv),
      hlHD, Bool.false_or,
      occursIn_append_head _ _ _ hvne (by
        intro c hc
        exact (Option.some.inj hc) ▸ hastv),
      marker_no_pair m hm inst hinstmem, Bool.false_or,
      occursIn_append_last _ _ _ hvne (by
        intro c hc
        have hl : ("**".toList : Chars).getLast? = some '*' := by decide
        rw [hl] at hc
        exact (Option.some.inj hc) ▸ hastv),
      hlAST, Bool.false_or]
    have hb : (" ".toList ++ "SELL".toList : Chars) = " SELL".toList := by decide
    rw [hb, hlSELL]
  · -- entry piece
    split
    · rw [occursIn_append_head _ _ _ hvne fun c hc => hnumv c (renderQ_head hc),
        hlE, Bool.false_or]
      exact occursIn_false_of_forbidden isUpperAZ hvletter fun c hc =>
        numChars_no_letter c (renderQ_charset _ c hc)
    · exact occursIn_nil hvne
  · -- stop-loss piece
    split
    · rw [occursIn_append_head _ _ _ hvne fun c hc => hnumv c (renderQ_head hc),
        hlSL, Bool.false_or]
      exact occursIn_false_of_forbidden isUpperAZ hvletter fun c hc =>
        numChars_no_letter c (renderQ_charset _ c hc)
    · exact occursIn_nil hvne
  · -- take-profit piece
    split
    next htp =>
      split
      · rw [occursIn_append_head _ _ _ hvne fun c hc => hnumv c (renderQ_head hc),
          hlTP, Bool.false_or]
        exact occursIn_false_of_forbidden isUpperAZ hvletter fun c hc =>
          numChars_no_letter c (renderQ_charset _ c hc)
      · have htpne : s.take_profit ≠ [] := not_isEmpty_iff.mp htp
        rw [occursIn_append_head _ _ _ hvne fun c hc => hnumv c (joinComma_head htpne hc),
          hlTPS, Bool.false_or]
        exact occursIn_false_of_forbidden isUpperAZ hvletter fun c hc =>
          joinChars_no_letter c (joinComma_charset _ c hc)
    next => exact occursIn_nil hvne
  · -- risk/reward piece
    split
    next hrr =>
      cases hrreq : s.risk_reward with
      | none =>
        rw [hrreq] at hrr
        simp [optStrTruthy] at hrr
      | some rs =>
        rw [hrreq] at hrr
        have hcs := hrrcs rs hrreq
        rw [Option.getD_some,
          occursIn_append_head _ _ _ hvne
            (fun c hc => hrrv c (hcs c (List.mem_of_mem_head? hc))),
          hlRR, Bool.false_or]
        exact occursIn_false_of_forbidden isUpperAZ hvletter fun c hc =>
          rrChars_no_letter c (hcs c hc)
    next => exact occursIn_nil hvne
  · -- timeframe piece
    split
    next htf =>
      cases htfeq : s.timeframe with
      | none =>
        rw [htfeq] at htf
        simp [optStrTruthy] at htf
      | some ts =>
        obtain ⟨hcs, hcount⟩ := htfcs ts htfeq
        have hsp : ("\n⏰ TIMEFRAME: ".toList : Chars) =
            "\n⏰ TIMEFRAME:".toList ++ " ".toList := by decide
        rw [Option.getD_some, hsp, List.append_assoc,
          occursIn_append_last _ _ _ hvne (by
            intro c hc
            have hl : ("\n⏰ TIMEFRAME:".toList : Chars).getLast? = some ':' := by decide
            rw [hl] at hc
            exact (Option.some.inj hc) ▸ hcolv),
          hlTF, Bool.false_or]
        refine occursIn_false_of_forbidden
          (fun c => !(decide (c ∈ tfChars) || decide (c = ' ')))
          (List.any_eq_true.mp (marker_not_tf m hm)) ?_
        intro c hc
        rw [List.mem_append] at hc
        rcases hc with hc | hc
        · have h1 : (" ".toList : Chars) = [' '] := rfl
          rw [h1, List.mem_singleton] at hc
          subst hc
          decide
        · have h2 : decide (c ∈ tfChars) = true := decide_eq_true (hcs c hc)
          simp [h2]
    next => exact occursIn_nil hvne
  · -- confidence piece
    rw [List.append_assoc,
      occursIn_append_head _ _ _ hvne (by
        intro c hc
        cases hnd : natDigits (qfloorToNat (qmul s.confidence 100)) with
        | nil => exact absurd hnd (natDigits_ne_nil _)
        | cons d0 rest =>
          rw [hnd] at hc
          refine (Option.some.inj hc) ▸
            hdigv d0 (natDigits_charset (qfloorToNat (qmul s.confidence 100)) d0 ?_)
          rw [hnd]
          exact List.mem_cons_self d0 rest),
      hlCF, Bool.false_or]
    refine occursIn_false_of_forbidden isUpperAZ hvletter fun c hc => ?_
    rw [List.mem_append, List.mem_singleton] at hc
    rcases hc with hc | rfl
    · exact digitChars_no_letter c (natDigits_charset _ c hc)
    · decide

/-! ### Re-extraction from the summary -/

theorem occursIn_header (A B C D : Chars) (tail : List Chars) :
    occursIn B (List.flatten ((A ++ B ++ C ++ D) :: tail)) = true := by
  refine occursIn_iff.mpr ⟨A, C ++ D ++ List.flatten tail, ?_⟩
  simp [List.append_assoc]

theorem occursIn_last_of_head (A B C D : Chars) (tail : List Chars) :
    occursIn D (List.flatten ((A ++ B ++ C ++ D) :: tail)) = true := by
  refine occursIn_iff.mpr ⟨A ++ B ++ C, List.flatten tail, ?_⟩
  simp [List.append_assoc]

/-- If a catalogue pair occurs in the text and no variant of any other
catalogue pair does, `_extract_instrument` returns exactly that pair. -/
theorem instrument_reextract_of (S : Chars) (inst : String) (hinstmem : inst ∈ forex_pairs)
    (hocc : occursIn inst.toList S = true)
    (hother : ∀ q ∈ forex_pairs, q ≠ inst → ∀ v ∈ pairVariants q,
      occursIn v.toList S = false) :
    _extract_instrument S = some inst := by
  have hfs : forex_pairs.findSome? (fun pair =>
      if (pairVariants pair).any (fun v => occursIn v.toList S) then some pair else none)
      = some inst := by
    refine findSome_unique hinstmem ?_ ?_
    · have hany : (pairVariants inst).any (fun v => occursIn v.toList S) = true := by
        refine List.any_eq_true.mpr ⟨inst, ?_, hocc⟩
        unfold pairVariants
        exact List.mem_cons_self _ _
      rw [if_pos hany]
    · intro q hq hqne
      have hany : (pairVariants q).any (fun v => occursIn v.toList S) = false :=
        List.any_eq_false.mpr fun v hv hcon =>
          Bool.false_ne_true ((hother q hq hqne v hv).symm.trans hcon)
      rw [if_neg fun hcon => Bool.false_ne_true (hany.symm.trans hcon)]
  unfold _extract_instrument
  rw [hfs]

theorem direction_reextract_buy (S : Chars) (hocc : occursIn "BUY".toList S = true) :
    _extract_direction S = some "BUY" := by
  unfold _extract_direction
  have hany : buyWords.any (fun w => occursIn w.toList S) = true :=
    List.any_eq_true.mpr ⟨"BUY", by decide, hocc⟩
  rw [if_pos hany]

theorem direction_reextract_sell (S : Chars) (hocc : occursIn "SELL".toList S = true)
    (hnob : ∀ m ∈ buyWords, occursIn m.toList S = false) :
    _extract_direction S = some "SELL" := by
  unfold _extract_direction
  have hanyb : buyWords.any (fun w => occursIn w.toList S) = false :=
    List.any_eq_false.mpr fun w hw hcon =>
      Bool.false_ne_true ((hnob w hw).symm.trans hcon)
  have hanys : sellWords.any (fun w => occursIn w.toList S) = true :=
    List.any_eq_true.mpr ⟨"SELL", by decide, hocc⟩
  rw [if_neg fun hcon => Bool.false_ne_true (hanyb.symm.trans hcon), if_pos hanys]

/-- C7 (amended): for a valid signal whose instrument is one of the 27
catalogue pairs, re-parsing the formatted summary recovers the same
instrument and the same direction. -/
theorem c7_amended (text : String) (inst : String)
    (hvalid : (extract_trading_signal text).is_valid_signal = true)
    (hinst : (extract_trading_signal text).instrument = some inst)
    (hcat : inst ∈ forex_pairs) :
    (extract_trading_signal (format_signal_summary
        (extract_trading_signal text))).instrument = some inst ∧
    (extract_trading_signal (format_signal_summary
        (extract_trading_signal text))).direction =
      (extract_trading_signal text).direction := by
  have hvalid' : _validate_signal (signalBase text) = true := hvalid
  have hdtr : optStrTruthy ((signalBase text).direction) = true := by
    by_contra hne
    rw [Bool.not_eq_true] at hne
    have hfalse : _validate_signal (signalBase text) = false := by
      unfold _validate_signal
      rw [hne]
      simp
    rw [hfalse] at hvalid'
    simp at hvalid'
  obtain ⟨d, hd, hdir⟩ : ∃ d, (d = "BUY" ∨ d = "SELL") ∧
      (extract_trading_signal text).direction = some d := by
    rcases direction_shape (upperChars text.toList) with h0 | h0 | h0
    · have hdtr' : optStrTruthy (_extract_direction (upperChars text.toList)) = true := hdtr
      rw [h0] at hdtr'
      simp [optStrTruthy] at hdtr'
    · exact ⟨"BUY", Or.inl rfl, h0⟩
    · exact ⟨"SELL", Or.inr rfl, h0⟩
  have hrrcs : ∀ rs, (extract_trading_signal text).risk_reward = some rs →
      ∀ c ∈ rs.toList, c ∈ rrChars := fun rs h =>
    rr_charset (show _calculate_risk_reward (upperChars text.toList) = some rs from h)
  have htfcs : ∀ ts, (extract_trading_signal text).timeframe = some ts →
      (∀ c ∈ ts.toList, c ∈ tfChars) ∧ ts.toList.countP isUpperAZ ≤ 4 := fun ts h =>
    tf_shape (show _extract_timeframe (upperChars text.toList) = some ts from h)
  have hinstU : upperChars inst.toList = inst.toList := pairs_toUpper inst hcat
  have hdU : upperChars d.toList = d.toList := by
    rcases hd with rfl | rfl <;> decide
  have hrrU : ∀ rs, (extract_trading_signal text).risk_reward = some rs →
      upperChars rs.toList = rs.toList := fun rs h =>
    upperChars_fix fun c hc => rrChars_toUpper c (hrrcs rs h c hc)
  have htfU : ∀ ts, (extract_trading_signal text).timeframe = some ts →
      upperChars ts.toList = ts.toList := fun ts h =>
    upperChars_fix fun c hc => tfChars_toUpper c ((htfcs ts h).1 c hc)
  have hsum : format_signal_summary (extract_trading_signal text) =
      String.mk (summaryChars (extract_trading_signal text)) := by
    unfold format_signal_summary
    rw [hvalid]
    rfl
  have hup : upperChars (format_signal_summary (extract_trading_signal text)).toList =
      upperChars (summaryChars (extract_trading_signal text)) := by
    rw [hsum, toList_mk]
  have hflat := upper_summary_eq (extract_trading_signal text) inst d
    hinst hinstU hdir hdU hrrU htfU
  constructor
  · show _extract_instrument (upperChars (format_signal_summary
      (extract_trading_signal text)).toList) = some inst
    rw [hup, hflat]
    refine instrument_reextract_of _ inst hcat ?_ ?_
    · exact occursIn_header "📈 **".toList inst.toList "** ".toList d.toList _
    · intro q hq hqne v hv
      exact summary_pieces_no_pair (extract_trading_signal text) inst d hcat hd
        hrrcs htfcs q hq hqne v hv
  · show _extract_direction (upperChars (format_signal_summary
      (extract_trading_signal text)).toList) = (extract_trading_signal text).direction
    rw [hup, hflat, hdir]
    rcases hd with rfl | rfl
    · exact direction_reextract_buy _
        (occursIn_last_of_head "📈 **".toList inst.toList "** ".toList "BUY".toList _)
    · exact direction_reextract_sell _
        (occursIn_last_of_head "📈 **".toList inst.toList "** ".toList "SELL".toList _)
        (fun m hm => summary_pieces_no_buy_marker (extract_trading_signal text) inst hcat
          hrrcs htfcs m hm)

/-- Witness for C7 (amended) at the concrete message `"EURUSD BUY SL 1.08"`. -/
theorem c7_witness :
    ((extract_trading_signal "EURUSD BUY SL 1.08").is_valid_signal = true ∧
     (extract_trading_signal "EURUSD BUY SL 1.08").instrument = some "EURUSD" ∧
     "EURUSD" ∈ forex_pairs) ∧
    ((extract_trading_signal (format_signal_summary
        (extract_trading_signal "EURUSD BUY SL 1.08"))).instrument = some "EURUSD" ∧
     (extract_trading_signal (format_signal_summary
        (extract_trading_signal "EURUSD BUY SL 1.08"))).direction =
       (extract_trading_signal "EURUSD BUY SL 1.08").direction) :=
  ⟨⟨by decide, by decide, by decide⟩,
   c7_amended "EURUSD BUY SL 1.08" "EURUSD" (by decide) (by decide) (by decide)⟩

end TelegramScraper
